import Mathlib

/-!
Xcode project generator (`devtools/create_project/xcode.cpp`).

A shallow embedding of the identifier registry (`getHash`, `newHash`), of the
serializer (`replace`, `writeSetting`, `writeProperty`), of the setting macros, of the
`add` calls of graph assembly, of the loop that builds the configuration lists, of
`createWorkspace` and of `ouputMainProjectFile` of `XCodeProvider`, and the properties
proved of them.

Conventions of the embedding:
* `std::string` is `String` (a list of characters); positions are character indices.
* `std::map<std::string, T>` is an association list kept in ascending key order
  (`mapFind`, `mapSet`).
* what `xcode.h` declares (flag bits, `Entry`, `Setting`, `Property` and its store,
  `Object`, `ObjectGroup`) is not among the sources; it is modelled from the specification
  and marked as such.
* a routine of graph assembly is the list of the `add` calls it makes (`AddCalls`).
* the `int` bit masks (`flags`) are `Nat` with `&&&`; `int indent` is `Int`.
* a loop over a vector is a recursion on the list of its elements, the loop variables
  being arguments; the `unsigned int` counters are `Nat` (a vector of `2^32` entries is
  out of reach).
-/

namespace CreateProjectTool

/-! ## std::string and std::map primitives -/

/-- The `std::string::resize(n)` operation: truncate to `n` characters, or pad with NUL
characters up to length `n`. -/
def resize (s : String) (n : Nat) : String :=
  ⟨s.data.take n ++ List.replicate (n - s.length) (Char.ofNat 0)⟩

/-- The `operator<` of `std::string`: lexicographic comparison by character code. -/
def stringLess : List Char → List Char → Bool
  | [], [] => false
  | [], _ :: _ => true
  | _ :: _, [] => false
  | a :: as, b :: bs =>
    if a.toNat < b.toNat then true
    else if b.toNat < a.toNat then false
    else stringLess as bs

/-- The `std::map::find` operation, as an option instead of an iterator. -/
def mapFind {α : Type} : List (String × α) → String → Option α
  | [], _ => none
  | (k', v') :: rest, k => if k = k' then some v' else mapFind rest k

/-- The assignment `m[k] = v` on a `std::map`: replace the value of an existing key,
else insert the pair at its place in ascending key order. -/
def mapSet {α : Type} : List (String × α) → String → α → List (String × α)
  | [], k, v => [(k, v)]
  | (k', v') :: rest, k, v =>
    if k = k' then (k, v) :: rest
    else if stringLess k.data k'.data then (k, v) :: (k', v') :: rest
    else (k', v') :: mapSet rest k v

/-! ## Object hash -/

/-- The registry part of `XCodeProvider`: the member `_hashDictionnary`, and the number of
calls made to `createUUID()` so far (the random source is a stream indexed by that
number). -/
structure XCodeProvider where
  _hashDictionnary : List (String × String)
  uuidCalls : Nat
  deriving DecidableEq, Repr

/-- A freshly constructed provider: empty dictionary, no UUID drawn yet. -/
def XCodeProvider.new : XCodeProvider := ⟨[], 0⟩

/-- Source: `bool isSeparator (char s) { return (s == '-'); }`. -/
def isSeparator (s : Char) : Bool := s == '-'

/-- The C library `toupper` in the "C" locale. -/
def toupper (c : Char) : Char :=
  if 'a' ≤ c ∧ c ≤ 'z' then Char.ofNat (c.toNat - 32) else c

/-- Source: `XCodeProvider::newHash`, applied to the string `hash` that `createUUID()`
returned: erase the separators, resize to 24 characters, upper-case every character. -/
def newHash (hash : String) : String :=
  let hash : String := ⟨hash.data.filter (fun c => !isSeparator c)⟩
  let hash := resize hash 24
  ⟨hash.data.map toupper⟩

/-- Source: `XCodeProvider::getHash` (the `#else` branch, `DEBUG_XCODE_HASH` being 0).
`createUUID()` is defined outside `xcode.cpp` and is a parameter here: `createUUID n` is
the string returned by its `n`-th call. Returns the identifier and the provider after
the call. -/
def getHash (createUUID : Nat → String) (p : XCodeProvider) (key : String) :
    String × XCodeProvider :=
  match mapFind p._hashDictionnary key with
  | some second => (second, p)
  | none =>
    let hash := newHash (createUUID p.uuidCalls)
    (hash, ⟨mapSet p._hashDictionnary key hash, p.uuidCalls + 1⟩)

/-- A sequence of `getHash` calls, one per key of `keys`, in order: the identifiers
returned and the provider after the last call. -/
def getHashes (createUUID : Nat → String) :
    XCodeProvider → List String → List String × XCodeProvider
  | p, [] => ([], p)
  | p, key :: keys =>
    let r := getHash createUUID p key
    let rs := getHashes createUUID r.2 keys
    (r.1 :: rs.1, rs.2)

/-- Invariant of the registry: every stored identifier is `newHash` of one of the UUIDs
drawn so far, and no identifier is stored under two keys. -/
def RegistryInv (createUUID : Nat → String) (p : XCodeProvider) : Prop :=
  (∀ k v, mapFind p._hashDictionnary k = some v →
    ∃ n, n < p.uuidCalls ∧ v = newHash (createUUID n)) ∧
  (∀ k1 k2 v, mapFind p._hashDictionnary k1 = some v →
    mapFind p._hashDictionnary k2 = some v → k1 = k2)

/-- Hexadecimal digit, either case. -/
def isHexDigit (c : Char) : Bool := "0123456789abcdefABCDEF".data.contains c

/-- Upper-case hexadecimal digit: `0-9` or `A-F`. -/
def isUpperHexDigit (c : Char) : Bool := "0123456789ABCDEF".data.contains c

/-- The five groups of a 36-character UUID string: what stands before, between and after
the positions 8, 13, 18 and 23. -/
def uuidGroups (s : String) : List (List Char) :=
  [s.data.take 8, (s.data.drop 9).take 4, (s.data.drop 14).take 4,
   (s.data.drop 19).take 4, s.data.drop 24]

/-- Canonical UUID text: 32 hexadecimal digits in groups of 8-4-4-4-12 separated
by `-`. -/
def isCanonicalUUID (s : String) : Bool :=
  (s.data == List.intercalate ['-'] (uuidGroups s)) &&
  ((uuidGroups s).map List.length == [8, 4, 4, 4, 12]) &&
  (uuidGroups s).all (fun g => g.all isHexDigit)

/-- The hexadecimal digits of a string, in order. -/
def hexDigitsOf (s : String) : List Char := s.data.filter isHexDigit

/-! ## Output: string replacement -/

/-- Search of `find` in the remaining characters of a string, `pos` being the position of
the first of them: the lowest position at which `find` starts. -/
def stdFindFrom (find : List Char) : List Char → Nat → Option Nat
  | [], pos => if find.isPrefixOf [] then some pos else none
  | c :: cs, pos =>
    if find.isPrefixOf (c :: cs) then some pos else stdFindFrom find cs (pos + 1)

/-- The `std::string::find(str, pos)` operation: the lowest position `p ≥ pos` at which
`find` occurs in `input`, `none` standing for `npos`. -/
def stdFind (input find : String) (pos : Nat) : Option Nat :=
  if pos > input.length then none else stdFindFrom find.data (input.data.drop pos) pos

/-- The `std::string::replace(pos, len, str)` operation. -/
def stdReplace (input : String) (pos len : Nat) (str : String) : String :=
  ⟨input.data.take pos ++ str.data ++ input.data.drop (pos + len)⟩

/-- The `for` loop of `replace`, with a bound on the number of iterations: `none` when
the bound is reached before `find` returns `npos`. -/
def replaceLoop (find replaceStr : String) : Nat → String → Nat → Option String
  | 0, _, _ => none
  | fuel + 1, input, pos =>
    match stdFind input find pos with
    | none => some input
    | some p =>
      replaceLoop find replaceStr fuel (stdReplace input p find.length replaceStr)
        (p + replaceStr.length)

/-- Source: `std::string replace(std::string input, const std::string find,
std::string replaceStr)`. The loop is run with `input.length + 1` iterations allowed,
which it never exhausts (every iteration but the last consumes an occurrence of the
non-empty `find` in what is left of the original input). -/
def replace (input find replaceStr : String) : String :=
  if find.length = 0 then input
  else (replaceLoop find replaceStr (input.length + 1) input 0).getD input

/-! ## Output: settings and properties -/

/-- Modelled from the spec: the flag bits of a Setting or Property (list, single-item,
no-quote, quote-the-variable-name, no-value), an enum of `xcode.h`, which is not among the
sources at hand; `xcode.cpp` only tests them with `&`. -/
def SettingsAsList : Nat := 0x01

/-- Modelled from the spec: see `SettingsAsList`. -/
def SettingsSingleItem : Nat := 0x02

/-- Modelled from the spec: see `SettingsAsList`. -/
def SettingsNoQuote : Nat := 0x04

/-- Modelled from the spec: see `SettingsAsList`. -/
def SettingsQuoteVariable : Nat := 0x08

/-- Modelled from the spec: see `SettingsAsList`. -/
def SettingsNoValue : Nat := 0x10

/-- Modelled from the spec: one (value, comment) pair of a Setting, the `Entry` of
`xcode.h`, with the two fields `writeSetting` reads. -/
structure Entry where
  value : String
  comment : String
  deriving DecidableEq, Repr

/-- Modelled from the spec: the `Setting` of `xcode.h`: (value, comment) pairs, a flag
set, an indent depth and an explicit ordering key. -/
structure Setting where
  entries : List Entry
  flags : Nat
  indent : Int
  order : Int
  deriving DecidableEq, Repr

/-- Modelled from the spec: the `Property` of `xcode.h`: the Settings by key, in the
iteration order of the underlying store, the flag set, and the explicit-order flag. -/
structure Property where
  settings : List (String × Setting)
  flags : Nat
  hasOrder : Bool
  deriving DecidableEq, Repr

/-- Insertion of a Setting behind every Setting whose order index is not greater. -/
def orderedInsert (p : String × Setting) : List (String × Setting) → List (String × Setting)
  | [] => [p]
  | q :: rest => if p.2.order < q.2.order then p :: q :: rest else q :: orderedInsert p rest

/-- Modelled from the spec: `Property::getOrderedSettingList` of `xcode.h`: "when explicit
order is requested, the serializer must emit settings sorted by that index, and ties are
broken by insertion order (stable sort)"; otherwise the Settings as the store holds
them. -/
def Property.getOrderedSettingList (prop : Property) : List (String × Setting) :=
  if prop.hasOrder then prop.settings.foldl (fun acc p => orderedInsert p acc) []
  else prop.settings

/-- The indent loop of `writeSetting`: `for (i = 0; i < indent; ++i) newline += "\t"`,
for a loop that runs `n` times. -/
def addTabs : Nat → String → String
  | 0, newline => newline
  | n + 1, newline => addTabs n (newline ++ "\t")

/-- The entry loop of the list branch of `writeSetting`; the state is `output` and
`count`. -/
def listLoop (quote escape_quote newline : String) : List Entry → String → Nat → String
  | [], output, _ => output
  | e :: es, output, count =>
    let value := e.value
    if value ≠ "" then
      let output := if count > 0 then output ++ ("," ++ newline) else output
      let output := output ++ (quote ++ replace value quote escape_quote ++ quote)
      let comment := e.comment
      let output := if comment ≠ "" then output ++ (" /* " ++ comment ++ " */") else output
      listLoop quote escape_quote newline es output (count + 1)
    else
      listLoop quote escape_quote newline es output count

/-- The entry loop of the scalar branch of `writeSetting`; the state is the index `i`
and `output`. -/
def scalarLoop : List Entry → Nat → String → String
  | [], _, output => output
  | e :: es, i, output =>
    let value := e.value
    let output := if i ≠ 0 then output ++ " " else output
    let output := output ++ value
    let comment := e.comment
    let output := if comment ≠ "" then output ++ (" /* " ++ comment ++ " */") else output
    scalarLoop es (i + 1) output

/-- Source: `XCodeProvider::writeSetting(const std::string &variable,
const Setting &setting)`. -/
def writeSetting (varName : String) (setting : Setting) : String :=
  let quote := if setting.flags &&& SettingsNoQuote ≠ 0 then "" else "\""
  let escape_quote := if quote = "" then "" else "\\" ++ quote
  let newline := addTabs setting.indent.toNat "\n"
  let var :=
    if setting.flags &&& SettingsQuoteVariable ≠ 0 then "\"" ++ varName ++ "\"" else varName
  if setting.flags &&& SettingsAsList ≠ 0 then
    let output := var ++ (if setting.flags &&& SettingsNoValue ≠ 0 then "(" else " = (") ++ newline
    let output := listLoop quote escape_quote newline setting.entries output 0
    let newline := resize newline (newline.length - 1)
    output ++ (if setting.flags &&& SettingsNoValue ≠ 0 then "\t\t\t)" else "," ++ newline ++ ")")
  else
    let output := var
    let output := output ++ (if setting.flags &&& SettingsNoValue ≠ 0 then "" else " = " ++ quote)
    let output := scalarLoop setting.entries 0 output
    output ++ (if setting.flags &&& SettingsNoValue ≠ 0 then "" else quote)

/-- The loop of `writeProperty` over the ordered settings; `size` is `settings.size()`,
the length of the ordered list. -/
def propertyLoop (prop : Property) (flags size : Nat) : List (String × Setting) → String → String
  | [], output => output
  | setting :: rest, output =>
    let output :=
      if size > 1 ∨ prop.flags &&& SettingsSingleItem ≠ 0 then
        output ++ (if flags &&& SettingsSingleItem ≠ 0 then " " else "\t\t\t\t")
      else output
    let output := output ++ writeSetting setting.1 setting.2
    let output :=
      if prop.flags &&& SettingsAsList ≠ 0 ∧ prop.settings.length > 1 then
        output ++ (if prop.settings.length > 0 then ",\n" else "\n")
      else
        (output ++ ";") ++ (if flags &&& SettingsSingleItem ≠ 0 then " " else "\n")
    propertyLoop prop flags size rest output

/-- Source: `XCodeProvider::writeProperty(const std::string &variable, Property &prop,
int flags)`. -/
def writeProperty (varName : String) (prop : Property) (flags : Nat) : String :=
  let output := (if flags &&& SettingsSingleItem ≠ 0 then "" else "\t\t\t") ++ varName ++ " = "
  let output :=
    if prop.settings.length > 1 ∨ prop.flags &&& SettingsSingleItem ≠ 0 then
      output ++ (if prop.flags &&& SettingsAsList ≠ 0 then "(\n" else "\x7b\n")
    else output
  let settings := prop.getOrderedSettingList
  let output := propertyLoop prop flags settings.length settings output
  if prop.settings.length > 1 ∨ prop.flags &&& SettingsSingleItem ≠ 0 then
    output ++ (if prop.flags &&& SettingsAsList ≠ 0 then "\t\t\t);\n" else "\t\t\t\x7d;\n")
  else output

/-! ## Reference renderings used in the statements -/

/-- The trailing comment of an entry: ` /* c */` when `c` is not empty. -/
def commentSuffix (c : String) : String := if c ≠ "" then " /* " ++ c ++ " */" else ""

/-- Every double quote of `v` preceded by a backslash. -/
def escapeQuotes (v : String) : String :=
  ⟨v.data.flatMap (fun c => if c = '"' then ['\\', '"'] else [c])⟩

/-- A line break followed by `k` tab characters. -/
def NL (k : Nat) : String := ⟨'\n' :: List.replicate k '\t'⟩

/-- The quote mark of a Setting: a double quote, or nothing under `SettingsNoQuote`. -/
def quoteMark (flags : Nat) : String := if flags &&& SettingsNoQuote ≠ 0 then "" else "\""

/-- The escaped quote mark: backslash and double quote, or nothing under
`SettingsNoQuote`. -/
def escapedQuoteMark (flags : Nat) : String :=
  if flags &&& SettingsNoQuote ≠ 0 then "" else "\\\""

/-- The name of a Setting as rendered: in double quotes under `SettingsQuoteVariable`. -/
def renderedName (name : String) (flags : Nat) : String :=
  if flags &&& SettingsQuoteVariable ≠ 0 then "\"" ++ name ++ "\"" else name

/-- What one pass of the loop of `writeProperty` appends for a Setting: the member
indent, the Setting rendered, and the terminator; `size` is the length of the ordered
list. -/
def memberText (prop : Property) (flags size : Nat) (setting : String × Setting) : String :=
  (if size > 1 ∨ prop.flags &&& SettingsSingleItem ≠ 0 then
      (if flags &&& SettingsSingleItem ≠ 0 then " " else "\t\t\t\t")
    else "")
  ++ writeSetting setting.1 setting.2
  ++ (if prop.flags &&& SettingsAsList ≠ 0 ∧ prop.settings.length > 1 then
        (if prop.settings.length > 0 then ",\n" else "\n")
      else ";" ++ (if flags &&& SettingsSingleItem ≠ 0 then " " else "\n"))

/-! ## Value model: constructors, the settings store, the setting macros -/

/-- Modelled from the spec: the constructor `Setting(value, comment, flags, indent, order)`
of `xcode.h`, "construct a Setting from a single value": one (value, comment) pair. -/
def Setting.ofValue (value comment : String) (flgs : Nat) (idt ord : Int) : Setting :=
  ⟨[⟨value, comment⟩], flgs, idt, ord⟩

/-- Modelled from the spec: the constructor `Setting(values, flags, indent, order)` of
`xcode.h`, "from an ordered/unordered list of values": one pair per value, without
comment. -/
def Setting.ofValues (values : List String) (flgs : Nat) (idt ord : Int) : Setting :=
  ⟨values.map (fun v => ⟨v, ""⟩), flgs, idt, ord⟩

/-- Modelled from the spec: the order of a Setting constructed without the "optional
explicit ordering key" (a default argument of `xcode.h`). -/
def noOrder : Int := -1

/-- Modelled from the spec: the default constructor `Property()` of `xcode.h`: no Setting,
no flag, no explicit order. -/
def Property.empty : Property := ⟨[], 0, false⟩

/-- Modelled from the spec: the copy constructor of `Property` (`xcode.h`): "a
deep-enough copy (value semantics for the settings mapping)". -/
def Property.copy (rhs : Property) : Property := ⟨rhs.settings, rhs.flags, rhs.hasOrder⟩

/-- Modelled from the spec: the assignment `settings[key] = setting` on the store of a
Property (its type is declared in `xcode.h`): "adding a Setting under a key that already
exists in a Property replaces it (last write wins)", and the store keeps "insertion
order": a new key goes behind the keys already held. -/
def settingsSet : List (String × Setting) → String → Setting → List (String × Setting)
  | [], key, setting => [(key, setting)]
  | (k, s) :: rest, key, setting =>
    if key = k then (key, setting) :: rest else (k, s) :: settingsSet rest key setting

/-- Modelled from the spec: `settings.erase(key)` on the store of a Property: the key is
removed, "removal of a non-existent key is a no-op". -/
def settingsErase (settings : List (String × Setting)) (key : String) :
    List (String × Setting) :=
  settings.filter (fun p => p.1 ≠ key)

/-- Source: `#define ADD_SETTING(config, key, value)
config.settings[key] = Setting(value, "", SettingsNoQuote);`. -/
def ADD_SETTING (config : Property) (key value : String) : Property :=
  ⟨settingsSet config.settings key (Setting.ofValue value "" SettingsNoQuote 0 noOrder),
    config.flags, config.hasOrder⟩

/-- Source: `#define ADD_SETTING_ORDER(config, key, value, order)
config.settings[key] = Setting(value, "", SettingsNoQuote, 0, order);`. -/
def ADD_SETTING_ORDER (config : Property) (key value : String) (order : Int) : Property :=
  ⟨settingsSet config.settings key (Setting.ofValue value "" SettingsNoQuote 0 order),
    config.flags, config.hasOrder⟩

/-- Source: `#define ADD_SETTING_ORDER_NOVALUE(config, key, comment, order)
config.settings[key] = Setting("", comment, SettingsNoValue, 0, order);`. -/
def ADD_SETTING_ORDER_NOVALUE (config : Property) (key comment : String) (order : Int) :
    Property :=
  ⟨settingsSet config.settings key (Setting.ofValue "" comment SettingsNoValue 0 order),
    config.flags, config.hasOrder⟩

/-- Source: `#define ADD_SETTING_QUOTE(config, key, value)
config.settings[key] = Setting(value);`. -/
def ADD_SETTING_QUOTE (config : Property) (key value : String) : Property :=
  ⟨settingsSet config.settings key (Setting.ofValue value "" 0 0 noOrder),
    config.flags, config.hasOrder⟩

/-- Source: `#define ADD_SETTING_QUOTE_VAR(config, key, value)
config.settings[key] = Setting(value, "", SettingsQuoteVariable);`. -/
def ADD_SETTING_QUOTE_VAR (config : Property) (key value : String) : Property :=
  ⟨settingsSet config.settings key (Setting.ofValue value "" SettingsQuoteVariable 0 noOrder),
    config.flags, config.hasOrder⟩

/-- Source: `#define ADD_SETTING_LIST(config, key, values, flags, indent)
config.settings[key] = Setting(values, flags, indent);`. -/
def ADD_SETTING_LIST (config : Property) (key : String) (values : List String)
    (flags : Nat) (indent : Int) : Property :=
  ⟨settingsSet config.settings key (Setting.ofValues values flags indent noOrder),
    config.flags, config.hasOrder⟩

/-- Source: `#define REMOVE_SETTING(config, key) config.settings.erase(key);`. -/
def REMOVE_SETTING (config : Property) (key : String) : Property :=
  ⟨settingsErase config.settings key, config.flags, config.hasOrder⟩

/-- Source: `XCodeProvider::setupProject`, the Property `regions` ("List of known
regions") as it is when assigned to `knownRegions`. -/
def regions : Property :=
  let regions := Property.empty
  let regions : Property := ⟨regions.settings, SettingsAsList, regions.hasOrder⟩
  let regions := ADD_SETTING_ORDER_NOVALUE regions "English" "" 0
  let regions := ADD_SETTING_ORDER_NOVALUE regions "Japanese" "" 1
  let regions := ADD_SETTING_ORDER_NOVALUE regions "French" "" 2
  let regions := ADD_SETTING_ORDER_NOVALUE regions "German" "" 3
  regions

/-- Source: `XCodeProvider::setupBuildConfiguration`, the `ValueList`
`iPhone_FrameworkSearchPaths`. -/
def iPhone_FrameworkSearchPaths : List String :=
  ["$(inherited)", "\"$(SDKROOT)$(SYSTEM_LIBRARY_DIR)/PrivateFrameworks\""]

/-- Source: `XCodeProvider::setupBuildConfiguration`, the `ValueList`
`iPhone_HeaderSearchPaths`. -/
def iPhone_HeaderSearchPaths : List String := ["../../engines/", "../../", "include/"]

/-- Source: `XCodeProvider::setupBuildConfiguration`, the `ValueList` `iPhone_LibPaths`. -/
def iPhone_LibPaths : List String := ["$(inherited)", "\"$(SRCROOT)/lib\""]

/-- Source: `XCodeProvider::setupBuildConfiguration`, the Property `iPhone_Debug` as it is
when assigned to `buildSettings` of the iPhone Debug configuration. -/
def iPhone_Debug : Property :=
  let iPhone_Debug := Property.empty
  let iPhone_Debug := ADD_SETTING_QUOTE iPhone_Debug "ARCHS" "$(ARCHS_UNIVERSAL_IPHONE_OS)"
  let iPhone_Debug := ADD_SETTING_QUOTE iPhone_Debug "CODE_SIGN_IDENTITY" "iPhone Developer"
  let iPhone_Debug :=
    ADD_SETTING_QUOTE_VAR iPhone_Debug "CODE_SIGN_IDENTITY[sdk=iphoneos*]" "iPhone Developer"
  let iPhone_Debug := ADD_SETTING iPhone_Debug "COMPRESS_PNG_FILES" "NO"
  let iPhone_Debug := ADD_SETTING iPhone_Debug "COPY_PHASE_STRIP" "NO"
  let iPhone_Debug := ADD_SETTING_QUOTE iPhone_Debug "DEBUG_INFORMATION_FORMAT" "dwarf-with-dsym"
  let iPhone_Debug := ADD_SETTING_LIST iPhone_Debug "FRAMEWORK_SEARCH_PATHS"
    iPhone_FrameworkSearchPaths SettingsAsList 5
  let iPhone_Debug := ADD_SETTING iPhone_Debug "GCC_DYNAMIC_NO_PIC" "NO"
  let iPhone_Debug := ADD_SETTING iPhone_Debug "GCC_ENABLE_CPP_EXCEPTIONS" "NO"
  let iPhone_Debug := ADD_SETTING iPhone_Debug "GCC_ENABLE_FIX_AND_CONTINUE" "NO"
  let iPhone_Debug := ADD_SETTING iPhone_Debug "GCC_OPTIMIZATION_LEVEL" "0"
  let iPhone_Debug := ADD_SETTING iPhone_Debug "GCC_PRECOMPILE_PREFIX_HEADER" "NO"
  let iPhone_Debug := ADD_SETTING_QUOTE iPhone_Debug "GCC_PREFIX_HEADER" ""
  let iPhone_Debug := ADD_SETTING iPhone_Debug "GCC_THUMB_SUPPORT" "NO"
  let iPhone_Debug := ADD_SETTING iPhone_Debug "GCC_UNROLL_LOOPS" "YES"
  let iPhone_Debug := ADD_SETTING_LIST iPhone_Debug "HEADER_SEARCH_PATHS"
    iPhone_HeaderSearchPaths (SettingsAsList ||| SettingsNoQuote) 5
  let iPhone_Debug := ADD_SETTING iPhone_Debug "INFOPLIST_FILE" "Info.plist"
  let iPhone_Debug := ADD_SETTING_LIST iPhone_Debug "LIBRARY_SEARCH_PATHS"
    iPhone_LibPaths SettingsAsList 5
  let iPhone_Debug := ADD_SETTING iPhone_Debug "ONLY_ACTIVE_ARCH" "YES"
  let iPhone_Debug := ADD_SETTING iPhone_Debug "PREBINDING" "NO"
  let iPhone_Debug := ADD_SETTING iPhone_Debug "PRODUCT_NAME" "ResidualVM"
  let iPhone_Debug :=
    ADD_SETTING_QUOTE iPhone_Debug "PROVISIONING_PROFILE" "EF590570-5FAC-4346-9071-D609DE2B28D8"
  let iPhone_Debug := ADD_SETTING_QUOTE_VAR iPhone_Debug "PROVISIONING_PROFILE[sdk=iphoneos*]" ""
  let iPhone_Debug := ADD_SETTING iPhone_Debug "SDKROOT" "iphoneos4.0"
  let iPhone_Debug := ADD_SETTING_QUOTE iPhone_Debug "TARGETED_DEVICE_FAMILY" "1,2"
  iPhone_Debug

/-- Source: `XCodeProvider::setupBuildConfiguration`, the Property `iPhone_Release`,
copy-constructed from `iPhone_Debug` and patched, as it is when assigned to
`buildSettings` of the iPhone Release configuration. -/
def iPhone_Release : Property :=
  let iPhone_Release := Property.copy iPhone_Debug
  let iPhone_Release := ADD_SETTING iPhone_Release "GCC_OPTIMIZATION_LEVEL" "3"
  let iPhone_Release := ADD_SETTING iPhone_Release "COPY_PHASE_STRIP" "YES"
  let iPhone_Release := REMOVE_SETTING iPhone_Release "GCC_DYNAMIC_NO_PIC"
  let iPhone_Release := ADD_SETTING iPhone_Release "WRAPPER_EXTENSION" "app"
  iPhone_Release

/-! ## Graph assembly: the Objects passed to `add()` -/

/-- Modelled from the spec: the `Object` of `xcode.h`, with the constructor arguments
`Object(parent, id, name, type, refType, comment)` that `xcode.cpp` passes and reads back
(`id`, `name`, `refType`). -/
structure Object where
  id : String
  name : String
  type : String
  refType : String
  comment : String
  deriving DecidableEq, Repr

/-- The eleven `ObjectGroup` members of `XCodeProvider`, in the order in which
`ouputMainProjectFile` writes them. -/
inductive GroupMember where
  | _buildFile
  | _copyFilesBuildPhase
  | _fileReference
  | _frameworksBuildPhase
  | _groups
  | _nativeTarget
  | _project
  | _resourcesBuildPhase
  | _sourcesBuildPhase
  | _buildConfiguration
  | _configurationList
  deriving DecidableEq, Repr

/-- The calls `group.add(object)` made by a routine, in call order. -/
abbrev AddCalls := List (GroupMember × Object)

/-- Modelled from the spec: the members of a group after the calls, `ObjectGroup.add`
(of `xcode.h`) being "appends to the ordered member list". -/
def addedTo (g : GroupMember) (calls : AddCalls) : List Object :=
  (calls.filter (fun c => c.1 = g)).map Prod.snd

/-- Source: `XCodeProvider::createWorkspace`, the member `_targets` after the three
`push_back`. -/
def _targets : List String := ["ResidualVM-iPhone", "ResidualVM-OS X", "ResidualVM-Simulator"]

/-- Source: `#define ADD_BUILD_FILE(id, name, comment)`, the `add` call it makes. -/
def ADD_BUILD_FILE (id name comment : String) : GroupMember × Object :=
  (GroupMember._buildFile, ⟨id, name, "PBXBuildFile", "PBXBuildFile", comment⟩)

/-- Source: `#define ADD_FILE_REFERENCE(name, properties)`, the `add` call it makes. -/
def ADD_FILE_REFERENCE (name : String) : GroupMember × Object :=
  (GroupMember._fileReference, ⟨name, name, "PBXFileReference", "PBXFileReference", name⟩)

/-- Source: `XCodeProvider::writeFileListToProject`, the `add` call it makes. -/
def writeFileListToProject : AddCalls :=
  [(GroupMember._groups, ⟨"PBXGroup", "PBXGroup", "PBXGroup", "", ""⟩)]

/-- Source: `XCodeProvider::setupCopyFilesBuildPhase` ("Nothing to do here"). -/
def setupCopyFilesBuildPhase : AddCalls := []

/-- Source: `XCodeProvider::setupFrameworksBuildPhase`, the `ValueList`
`frameworks_iPhone`. -/
def frameworks_iPhone : List String :=
  ["CoreAudio.framework", "CoreFoundation.framework", "Foundation.framework",
   "UIKit.framework", "AudioToolbox.framework", "QuartzCore.framework", "libmad.a",
   "libmpeg2.a", "libFLAC.a", "libvorbisidec.a", "OpenGLES.framework"]

/-- Source: `XCodeProvider::setupFrameworksBuildPhase`, the `ValueList` `frameworks_osx`. -/
def frameworks_osx : List String :=
  ["CoreFoundation.framework", "Foundation.framework", "AudioToolbox.framework",
   "QuickTime.framework", "CoreMIDI.framework", "CoreAudio.framework",
   "QuartzCore.framework", "Carbon.framework", "ApplicationServices.framework",
   "IOKit.framework", "Cocoa.framework", "AudioUnit.framework"]

/-- Source: `XCodeProvider::setupFrameworksBuildPhase`, the `ValueList`
`frameworks_simulator`. -/
def frameworks_simulator : List String :=
  ["CoreAudio.framework", "CoreFoundation.framework", "Foundation.framework",
   "UIKit.framework", "AudioToolbox.framework", "QuartzCore.framework",
   "OpenGLES.framework"]

/-- One of the three blocks of `setupFrameworksBuildPhase`: the loop over the frameworks
of a target (a build file and a file reference for each), then the phase Object. -/
def frameworksPhase (frameworks : List String) (suffix target : String) : AddCalls :=
  frameworks.flatMap (fun framework =>
    [ADD_BUILD_FILE ("Frameworks_" ++ framework ++ suffix) framework
        (framework ++ " in Frameworks"),
     ADD_FILE_REFERENCE framework])
  ++ [(GroupMember._frameworksBuildPhase,
        ⟨"PBXFrameworksBuildPhase_" ++ target, "PBXFrameworksBuildPhase",
          "PBXFrameworksBuildPhase", "", "Frameworks"⟩)]

/-- Source: `XCodeProvider::setupFrameworksBuildPhase`, its `add` calls. -/
def setupFrameworksBuildPhase : AddCalls :=
  frameworksPhase frameworks_iPhone "_iphone" (_targets.getD 0 "")
  ++ frameworksPhase frameworks_osx "_osx" (_targets.getD 1 "")
  ++ frameworksPhase frameworks_simulator "_simulator" (_targets.getD 2 "")

/-- Source: `XCodeProvider::setupNativeTarget`, its `add` calls. -/
def setupNativeTarget : AddCalls :=
  _targets.map (fun target =>
    (GroupMember._nativeTarget,
      ⟨"PBXNativeTarget_" ++ target, "PBXNativeTarget", "PBXNativeTarget", "", target⟩))

/-- Source: `XCodeProvider::setupProject`, its `add` call. -/
def setupProject : AddCalls :=
  [(GroupMember._project, ⟨"PBXProject", "PBXProject", "PBXProject", "", "Project object"⟩)]

/-- Source: `XCodeProvider::setupResourcesBuildPhase`, the `ValueList` `files_list`. -/
def files_list : List String :=
  ["modern.zip", "kyra.dat", "lure.dat", "queen.tbl", "sky.cpt", "Default.png", "icon.png",
   "icon-72.png", "icon4.png", "drascula.dat", "hugo.dat", "teenagent.dat", "toon.dat"]

/-- Source: `XCodeProvider::setupResourcesBuildPhase`, its `add` calls: for every target,
a file reference for every file of `files_list`, then the phase Object. -/
def setupResourcesBuildPhase : AddCalls :=
  _targets.flatMap (fun target =>
    files_list.map ADD_FILE_REFERENCE
    ++ [(GroupMember._resourcesBuildPhase,
          ⟨"PBXResourcesBuildPhase_" ++ target, "PBXResourcesBuildPhase",
            "PBXResourcesBuildPhase", "", "Resources"⟩)])

/-- Source: `XCodeProvider::setupSourcesBuildPhase` ("TODO"). -/
def setupSourcesBuildPhase : AddCalls := []

/-- Source: `XCodeProvider::setupBuildConfiguration`, the eight configuration Objects in
the order in which they are added to `_buildConfiguration`. -/
def buildConfigurationObjects : List Object :=
  [⟨"XCBuildConfiguration_ResidualVM-iPhone_Debug", _targets.getD 0 "",
      "XCBuildConfiguration", "PBXNativeTarget", "Debug"⟩,
   ⟨"XCBuildConfiguration_ResidualVM-iPhone_Release", _targets.getD 0 "",
      "XCBuildConfiguration", "PBXNativeTarget", "Release"⟩,
   ⟨"XCBuildConfiguration_residualvm_Debug", "residualvm",
      "XCBuildConfiguration", "PBXProject", "Debug"⟩,
   ⟨"XCBuildConfiguration_residualvm_Release", "residualvm",
      "XCBuildConfiguration", "PBXProject", "Release"⟩,
   ⟨"XCBuildConfiguration_ResidualVM-OSX_Debug", _targets.getD 1 "",
      "XCBuildConfiguration", "PBXNativeTarget", "Debug"⟩,
   ⟨"XCBuildConfiguration_ResidualVMOSX_Release", _targets.getD 1 "",
      "XCBuildConfiguration", "PBXNativeTarget", "Release"⟩,
   ⟨"XCBuildConfiguration_ResidualVM-Simulator_Debug", _targets.getD 2 "",
      "XCBuildConfiguration", "PBXNativeTarget", "Debug"⟩,
   ⟨"XCBuildConfiguration_ResidualVM-Simulator_Release", _targets.getD 2 "",
      "XCBuildConfiguration", "PBXNativeTarget", "Release"⟩]

/-- Source: `XCodeProvider::setupBuildConfiguration`, the Object `configList` built from
the configuration `config`. -/
def configList (config : Object) : Object :=
  ⟨"XCConfigurationList_" ++ config.name, config.name, "XCConfigurationList", "",
    "Build configuration list for " ++ config.refType ++ " \"" ++ config.name ++ "\""⟩

/-- Source: `XCodeProvider::setupBuildConfiguration`, the loop "Configuration List" over
`_buildConfiguration.objects`: every pass reads `*config` and `*(++config)`, and the loop
header advances once more; `none` when `++config` reaches the end. -/
def configurationListLoop : List Object → Option (List Object)
  | [] => some []
  | [_] => none
  | config :: _ :: rest => (configurationListLoop rest).map (fun l => configList config :: l)

/-- Source: `XCodeProvider::setupBuildConfiguration`, its `add` calls. -/
def setupBuildConfiguration : Option AddCalls :=
  let calls : AddCalls :=
    buildConfigurationObjects.map (fun o => (GroupMember._buildConfiguration, o))
  (configurationListLoop (addedTo GroupMember._buildConfiguration calls)).map (fun lists =>
    calls ++ lists.map (fun o => (GroupMember._configurationList, o)))

/-- Source: `XCodeProvider::createWorkspace`, the `add` calls of the six setup routines it
runs, in order. -/
def graphAssembly : Option AddCalls :=
  setupBuildConfiguration.map (fun calls =>
    setupCopyFilesBuildPhase ++ setupFrameworksBuildPhase ++ setupNativeTarget
    ++ setupProject ++ setupResourcesBuildPhase ++ calls)

/-- The identifier keys passed to `add()` of the group `g`, in call order. -/
def addedKeys (g : GroupMember) (calls : AddCalls) : List String :=
  (addedTo g calls).map Object.id

/-! ## Workspace creation and the main project file -/

/-- The message of the fatal error of `createWorkspace`. -/
def couldNotCreateFolder (outputDir : String) : String :=
  "Could not create folder \"" ++ outputDir ++ "/" ++ "residualvm.xcodeproj\""

/-- Source: `XCodeProvider::createWorkspace`, the branch for systems other than Windows.
`mkdirResult` is what `mkdir` returned, `errno` the error number it left, `dirpIsNull`
whether `opendir` returned `NULL`; `EEXIST` is the constant of `<errno.h>`. The fatal
`error(...)` is `Except.error`; otherwise the setup routines run and their `add` calls
are returned. -/
def createWorkspace (outputDir : String) (EEXIST mkdirResult errno : Int)
    (dirpIsNull : Bool) : Except String (Option AddCalls) :=
  if mkdirResult = -1 then
    if errno = EEXIST then
      if dirpIsNull then Except.error (couldNotCreateFolder outputDir)
      else Except.ok graphAssembly
    else Except.error (couldNotCreateFolder outputDir)
  else Except.ok graphAssembly

/-- Source: the overload `XCodeProvider::writeSetting(const std::string &variable,
std::string value, std::string comment, int flags, int indent)`. -/
def writeSettingValue (varName value comment : String) (flags : Nat) (indent : Int) : String :=
  writeSetting varName (Setting.ofValue value comment flags indent noOrder)

/-- Source: `XCodeProvider::ouputMainProjectFile`. `opened` tells whether the stream could
be opened, `toString g` is what `g.toString()` returns for the group `g` (`xcode.h`), and
`p` is the registry when the footer is written. Returns the text written to the file and
the provider, or the fatal error. -/
def ouputMainProjectFile (createUUID : Nat → String) (p : XCodeProvider)
    (outputDir : String) (opened : Bool) (toString : GroupMember → String) :
    Except String (String × XCodeProvider) :=
  if !opened then
    Except.error ("Could not open \"" ++ outputDir ++ "/" ++ "residualvm.xcodeproj" ++ "/"
      ++ "project.pbxproj\" for writing")
  else
    let project := "// !$*UTF8*$!\n" ++ "\x7b\n" ++ "\t"
      ++ writeSettingValue "archiveVersion" "1" "" SettingsNoQuote 0 ++ ";\n"
      ++ "\tclasses = \x7b\n" ++ "\t\x7d;\n" ++ "\t"
      ++ writeSettingValue "objectVersion" "46" "" SettingsNoQuote 0 ++ ";\n"
      ++ "\tobjects = \x7b\n"
    let project := project ++ toString GroupMember._buildFile
    let project := project ++ toString GroupMember._copyFilesBuildPhase
    let project := project ++ toString GroupMember._fileReference
    let project := project ++ toString GroupMember._frameworksBuildPhase
    let project := project ++ toString GroupMember._groups
    let project := project ++ toString GroupMember._nativeTarget
    let project := project ++ toString GroupMember._project
    let project := project ++ toString GroupMember._resourcesBuildPhase
    let project := project ++ toString GroupMember._sourcesBuildPhase
    let project := project ++ toString GroupMember._buildConfiguration
    let project := project ++ toString GroupMember._configurationList
    let hash := getHash createUUID p "PBXProject"
    let project := project ++ "\t\x7d;\n" ++ "\t"
      ++ writeSettingValue "rootObject" hash.1 "Project object" SettingsNoQuote 0 ++ ";\n"
      ++ "\x7d\n"
    Except.ok (project, hash.2)

/-- Modelled from the spec: `ObjectGroup::toString` of `xcode.h`: "if the group has zero
members, it renders nothing (empty section, no brace pair emitted); otherwise it renders a
commented section header, then each member's serialized form ... in member-list order".
The header text and the serialization of a member are parameters. -/
def groupToString (sectionHeader : String) (renderObject : Object → String)
    (objects : List Object) : String :=
  if objects = [] then "" else sectionHeader ++ String.join (objects.map renderObject)

/-- The `add` calls of one run of the provider: `createWorkspace`, then `n` calls of
`writeFileListToProject`, then `setupSourcesBuildPhase` from `createOtherBuildFiles`. -/
def providerAddCalls (n : Nat) : Option AddCalls :=
  graphAssembly.map (fun calls =>
    calls ++ (List.replicate n writeFileListToProject).flatten ++ setupSourcesBuildPhase)

/-- The rendering of every group from its members after the calls `calls`, with a section
header and a member serialization for each group. -/
def renderGroups (sectionHeader : GroupMember → String)
    (renderObject : GroupMember → Object → String) (calls : AddCalls) :
    GroupMember → String :=
  fun g => groupToString (sectionHeader g) (renderObject g) (addedTo g calls)

/-- The pieces of a string between the leftmost non-overlapping occurrences of the
non-empty `find`, scanning from the left; `skip` is the number of characters of the
occurrence being crossed that are still to pass. -/
def splitOccurrences (find : List Char) : Nat → List Char → List (List Char)
  | _, [] => [[]]
  | skip + 1, _ :: cs => splitOccurrences find skip cs
  | 0, c :: cs =>
    if find.isPrefixOf (c :: cs) then [] :: splitOccurrences find (find.length - 1) cs
    else
      match splitOccurrences find 0 cs with
      | [] => [[c]]
      | piece :: pieces => (c :: piece) :: pieces

/-! ## The configuration lists -/

/-- Source: `XCodeProvider::setupBuildConfiguration`, the Property `buildConfigs` of one
pass of the loop "Configuration List", `debugHash` being `getHash((*config)->id)` and
`releaseHash` being `getHash((*(++config))->id)`. -/
def buildConfigs (debugHash releaseHash : String) : Property :=
  let buildConfigs := Property.empty
  let buildConfigs : Property := ⟨buildConfigs.settings, SettingsAsList, buildConfigs.hasOrder⟩
  let buildConfigs : Property :=
    ⟨settingsSet buildConfigs.settings debugHash (Setting.ofValue "" "Debug" SettingsNoValue 0 0),
      buildConfigs.flags, buildConfigs.hasOrder⟩
  let buildConfigs : Property :=
    ⟨settingsSet buildConfigs.settings releaseHash
        (Setting.ofValue "" "Release" SettingsNoValue 0 1),
      buildConfigs.flags, buildConfigs.hasOrder⟩
  buildConfigs

/-- Source: `XCodeProvider::setupBuildConfiguration`, the loop "Configuration List" over
`_buildConfiguration.objects`, with the registry: every pass builds `configList` from
`*config`, hashes the id of `*config` and then the id of `*(++config)`, assigns
`buildConfigs` to the property `buildConfigurations` and adds `configList`; the loop header
advances once more. Returns the Objects added with their `buildConfigurations`, and the
provider; `none` when `++config` reaches the end and is dereferenced. -/
def configurationLists (createUUID : Nat → String) :
    XCodeProvider → List Object → Option (List (Object × Property) × XCodeProvider)
  | p, [] => some ([], p)
  | _, [_] => none
  | p, config :: next :: rest =>
    let debug := getHash createUUID p config.id
    let release := getHash createUUID debug.2 next.id
    (configurationLists createUUID release.2 rest).map (fun r =>
      ((configList config, buildConfigs debug.1 release.1) :: r.1, r.2))

theorem mapFind_mapSet_self {α : Type} (m : List (String × α)) (k : String) (v : α) :
    mapFind (mapSet m k v) k = some v := by
  induction m with
  | nil => simp [mapSet, mapFind]
  | cons q rest ih =>
    obtain ⟨k', v'⟩ := q
    unfold mapSet
    by_cases h1 : k = k'
    · simp [h1, mapFind]
    · by_cases h2 : stringLess k.data k'.data = true
      · simp [h1, h2, mapFind]
      · simp [h1, h2, mapFind, ih]

theorem mapFind_mapSet_ne {α : Type} (m : List (String × α)) (k k2 : String) (v : α)
    (hne : k2 ≠ k) : mapFind (mapSet m k v) k2 = mapFind m k2 := by
  induction m with
  | nil => simp [mapSet, mapFind, hne]
  | cons q rest ih =>
    obtain ⟨k', v'⟩ := q
    unfold mapSet
    by_cases h1 : k = k'
    · subst h1
      simp [mapFind, hne]
    · by_cases h2 : stringLess k.data k'.data = true
      · simp [h1, h2, mapFind, hne]
      · simp [h1, h2, mapFind, ih]

/-! ## Lemmas on `getHash` -/

theorem getHash_of_found (cu : Nat → String) (p : XCodeProvider) (k v : String)
    (h : mapFind p._hashDictionnary k = some v) : getHash cu p k = (v, p) := by
  simp [getHash, h]

theorem getHash_found (cu : Nat → String) (p : XCodeProvider) (k : String) :
    mapFind (getHash cu p k).2._hashDictionnary k = some (getHash cu p k).1 := by
  unfold getHash
  cases h : mapFind p._hashDictionnary k with
  | some v => simpa using h
  | none => simp [mapFind_mapSet_self]

theorem getHash_keeps (cu : Nat → String) (p : XCodeProvider) (k k' v : String)
    (h : mapFind p._hashDictionnary k = some v) :
    mapFind (getHash cu p k').2._hashDictionnary k = some v := by
  unfold getHash
  cases h' : mapFind p._hashDictionnary k' with
  | some w => simpa using h
  | none =>
    have hne : k ≠ k' := by
      intro e
      subst e
      rw [h] at h'
      cases h'
    simp [mapFind_mapSet_ne _ _ _ _ hne, h]

theorem getHashes_keeps (cu : Nat → String) (ks : List String) :
    ∀ (p : XCodeProvider) (k v : String), mapFind p._hashDictionnary k = some v →
      mapFind (getHashes cu p ks).2._hashDictionnary k = some v := by
  induction ks with
  | nil => intro p k v h; simpa [getHashes] using h
  | cons k' ks ih =>
    intro p k v h
    simp only [getHashes]
    exact ih _ k v (getHash_keeps cu p k k' v h)

theorem getHash_uuidCalls_le (cu : Nat → String) (p : XCodeProvider) (k : String) :
    (getHash cu p k).2.uuidCalls ≤ p.uuidCalls + 1 := by
  unfold getHash
  cases mapFind p._hashDictionnary k <;> simp

theorem registryInv_new (cu : Nat → String) : RegistryInv cu XCodeProvider.new := by
  constructor <;> intro k <;> simp [XCodeProvider.new, mapFind]

theorem getHash_inv (cu : Nat → String) (N : Nat)
    (hinj : ∀ m, m < N → ∀ n, n < N → newHash (cu m) = newHash (cu n) → m = n)
    (p : XCodeProvider) (k : String) (hN : p.uuidCalls < N) (hp : RegistryInv cu p) :
    RegistryInv cu (getHash cu p k).2 := by
  unfold getHash
  cases hk : mapFind p._hashDictionnary k with
  | some w => simpa using hp
  | none =>
    obtain ⟨hval, hkey⟩ := hp
    have fresh : ∀ k' v, mapFind p._hashDictionnary k' = some v →
        v ≠ newHash (cu p.uuidCalls) := by
      intro k' v hv e
      obtain ⟨n, hn, rfl⟩ := hval k' v hv
      have := hinj n (Nat.lt_trans hn hN) p.uuidCalls hN e
      omega
    constructor
    · intro k' v hv
      by_cases e : k' = k
      · subst e
        simp only [mapFind_mapSet_self] at hv
        exact ⟨p.uuidCalls, Nat.lt_succ_self _, (Option.some.inj hv).symm⟩
      · simp only [mapFind_mapSet_ne _ _ _ _ e] at hv
        obtain ⟨n, hn, hv'⟩ := hval k' v hv
        exact ⟨n, Nat.lt_succ_of_lt hn, hv'⟩
    · intro k1 k2 v h1 h2
      by_cases e1 : k1 = k <;> by_cases e2 : k2 = k
      · rw [e1, e2]
      · subst e1
        simp only [mapFind_mapSet_self] at h1
        simp only [mapFind_mapSet_ne _ _ _ _ e2] at h2
        exact absurd (Option.some.inj h1).symm (fresh k2 v h2)
      · subst e2
        simp only [mapFind_mapSet_self] at h2
        simp only [mapFind_mapSet_ne _ _ _ _ e1] at h1
        exact absurd (Option.some.inj h2).symm (fresh k1 v h1)
      · simp only [mapFind_mapSet_ne _ _ _ _ e1] at h1
        simp only [mapFind_mapSet_ne _ _ _ _ e2] at h2
        exact hkey k1 k2 v h1 h2

theorem getHashes_length (cu : Nat → String) (ks : List String) :
    ∀ p : XCodeProvider, (getHashes cu p ks).1.length = ks.length := by
  induction ks with
  | nil => intro p; rfl
  | cons k ks ih => intro p; simp [getHashes, ih]

theorem getHashes_inv (cu : Nat → String) (N : Nat)
    (hinj : ∀ m, m < N → ∀ n, n < N → newHash (cu m) = newHash (cu n) → m = n)
    (ks : List String) :
    ∀ p : XCodeProvider, RegistryInv cu p → p.uuidCalls + ks.length ≤ N →
      RegistryInv cu (getHashes cu p ks).2 ∧
      ∀ k v, (k, v) ∈ List.zip ks (getHashes cu p ks).1 →
        mapFind (getHashes cu p ks).2._hashDictionnary k = some v := by
  induction ks with
  | nil =>
    intro p hp _
    exact ⟨by simpa [getHashes] using hp, by simp [getHashes]⟩
  | cons k ks ih =>
    intro p hp hN
    simp only [List.length_cons] at hN
    have hstep := getHash_inv cu N hinj p k (by omega) hp
    have hcalls := getHash_uuidCalls_le cu p k
    obtain ⟨hinv, hzip⟩ := ih (getHash cu p k).2 hstep (by omega)
    refine ⟨by simpa [getHashes] using hinv, ?_⟩
    intro k' v hmem
    simp only [getHashes, List.zip_cons_cons, List.mem_cons, Prod.mk.injEq] at hmem
    rcases hmem with ⟨rfl, rfl⟩ | hmem
    · simpa [getHashes] using getHashes_keeps cu ks _ _ _ (getHash_found cu p k')
    · simpa [getHashes] using hzip k' v hmem

/-! ## Claims on the identifier registry -/

/-- C1 (registry memoization): after `getHash(k)` on any provider state, and any further
`getHash` calls, a second `getHash(k)` returns the identifier of the first call and
leaves the provider as it was (no UUID is drawn, the dictionary is not touched); so
registering `"A"`, `"B"`, `"A"` returns the first identifier again at the third call. -/
theorem getHash_memoized (cu : Nat → String) (p : XCodeProvider) (k : String)
    (others : List String) :
    getHash cu (getHashes cu (getHash cu p k).2 others).2 k
        = ((getHash cu p k).1, (getHashes cu (getHash cu p k).2 others).2) ∧
    (getHashes cu p ["A", "B", "A"]).1
        = [(getHash cu p "A").1, (getHash cu (getHash cu p "A").2 "B").1,
           (getHash cu p "A").1] := by
  constructor
  · exact getHash_of_found _ _ _ _ (getHashes_keeps _ _ _ _ _ (getHash_found cu p k))
  · have h := getHash_of_found cu _ "A" _
      (getHash_keeps cu (getHash cu p "A").2 "A" "B" _ (getHash_found cu p "A"))
    simp [getHashes, h]

/-- C2, as stated, fails: two distinct UUIDs that agree on their first 24 hexadecimal
digits give the distinct keys `"A"` and `"B"` the same identifier. -/
theorem getHash_collision :
    "123e4567-e89b-12d3-a456-426600000000" ≠ "123e4567-e89b-12d3-a456-426600000001" ∧
    "A" ≠ "B" ∧
    (getHashes (fun n => if n = 0 then "123e4567-e89b-12d3-a456-426600000000"
        else "123e4567-e89b-12d3-a456-426600000001") XCodeProvider.new ["A", "B"]).1
      = ["123E4567E89B12D3A4564266", "123E4567E89B12D3A4564266"] := by
  decide

/-- C2 (registry uniqueness, amended): in a sequence of `getHash` calls on a fresh
provider, if the UUIDs drawn during the sequence have pairwise distinct `newHash` values,
then calls with distinct keys return distinct identifiers. -/
theorem getHash_distinct_keys (cu : Nat → String) (ks : List String)
    (hinj : ∀ m, m < ks.length → ∀ n, n < ks.length →
      newHash (cu m) = newHash (cu n) → m = n)
    (i j : Nat) (hi : i < ks.length) (hj : j < ks.length) (hne : ks[i] ≠ ks[j]) :
    (getHashes cu XCodeProvider.new ks).1.length = ks.length ∧
    (getHashes cu XCodeProvider.new ks).1[i]? ≠ (getHashes cu XCodeProvider.new ks).1[j]? := by
  have hlen := getHashes_length cu ks XCodeProvider.new
  refine ⟨hlen, ?_⟩
  obtain ⟨⟨_, hkey⟩, hzip⟩ := getHashes_inv cu ks.length hinj ks XCodeProvider.new
    (registryInv_new cu) (by simp [XCodeProvider.new])
  have hi' : i < (getHashes cu XCodeProvider.new ks).1.length := by omega
  have hj' : j < (getHashes cu XCodeProvider.new ks).1.length := by omega
  have mem : ∀ a (ha : a < ks.length) (ha' : a < (getHashes cu XCodeProvider.new ks).1.length),
      (ks[a], (getHashes cu XCodeProvider.new ks).1[a]) ∈
        List.zip ks (getHashes cu XCodeProvider.new ks).1 := by
    intro a ha ha'
    have hz : a < (List.zip ks (getHashes cu XCodeProvider.new ks).1).length := by
      simp [List.length_zip]; omega
    have := List.getElem_mem hz
    simpa [List.getElem_zip] using this
  rw [List.getElem?_eq_getElem hi', List.getElem?_eq_getElem hj']
  intro e
  have e' := Option.some.inj e
  have h1 := hzip _ _ (mem i hi hi')
  have h2 := hzip _ _ (mem j hj hj')
  rw [e'] at h1
  exact hne (hkey _ _ _ h1 h2)

/-- Witness, the calls `"A"`, `"B"`, `"A"` with three UUIDs of
distinct leading digits. -/
theorem getHash_distinct_keys_witness :
    (getHashes (fun n => if n = 0 then "123e4567-e89b-12d3-a456-426614174000"
        else if n = 1 then "223e4567-e89b-12d3-a456-426614174000"
        else "323e4567-e89b-12d3-a456-426614174000") XCodeProvider.new ["A", "B", "A"]).1.length
      = ["A", "B", "A"].length ∧
    (getHashes (fun n => if n = 0 then "123e4567-e89b-12d3-a456-426614174000"
        else if n = 1 then "223e4567-e89b-12d3-a456-426614174000"
        else "323e4567-e89b-12d3-a456-426614174000") XCodeProvider.new ["A", "B", "A"]).1[0]?
      ≠ (getHashes (fun n => if n = 0 then "123e4567-e89b-12d3-a456-426614174000"
        else if n = 1 then "223e4567-e89b-12d3-a456-426614174000"
        else "323e4567-e89b-12d3-a456-426614174000") XCodeProvider.new ["A", "B", "A"]).1[1]? :=
  getHash_distinct_keys _ ["A", "B", "A"] (by decide) 0 1 (by decide) (by decide) (by decide)

theorem toupper_hex (c : Char) (h : isHexDigit c = true) : isUpperHexDigit (toupper c) = true := by
  simp only [isHexDigit, List.contains_iff_exists_mem_beq, beq_iff_eq] at h
  obtain ⟨d, hd, rfl⟩ := h
  simp only [List.mem_cons, List.mem_singleton, List.not_mem_nil, or_false] at hd
  rcases hd with rfl | rfl | rfl | rfl | rfl | rfl | rfl | rfl | rfl | rfl | rfl | rfl | rfl |
    rfl | rfl | rfl | rfl | rfl | rfl | rfl | rfl | rfl <;> decide

theorem filter_sep_hex (g : List Char) (h : g.all isHexDigit = true) :
    g.filter (fun c => !isSeparator c) = g := by
  rw [List.filter_eq_self]
  intro c hc
  have hx := List.all_eq_true.mp h c hc
  by_cases e : c = '-'
  · subst e; exact absurd hx (by decide)
  · simp [isSeparator, e]

theorem filter_hex_hex (g : List Char) (h : g.all isHexDigit = true) :
    g.filter isHexDigit = g := by
  rw [List.filter_eq_self]
  exact fun c hc => List.all_eq_true.mp h c hc

theorem canonical_groups (s : String) (h : isCanonicalUUID s = true) :
    ∃ g1 g2 g3 g4 g5 : List Char,
      s.data = g1 ++ '-' :: (g2 ++ '-' :: (g3 ++ '-' :: (g4 ++ '-' :: g5))) ∧
      g1.length = 8 ∧ g2.length = 4 ∧ g3.length = 4 ∧ g4.length = 4 ∧ g5.length = 12 ∧
      g1.all isHexDigit = true ∧ g2.all isHexDigit = true ∧ g3.all isHexDigit = true ∧
      g4.all isHexDigit = true ∧ g5.all isHexDigit = true := by
  simp only [isCanonicalUUID, Bool.and_eq_true, beq_iff_eq] at h
  obtain ⟨⟨h1, h2⟩, h3⟩ := h
  refine ⟨s.data.take 8, (s.data.drop 9).take 4, (s.data.drop 14).take 4,
    (s.data.drop 19).take 4, s.data.drop 24, ?_, ?_⟩
  · simpa [uuidGroups, List.intercalate] using h1
  · simp only [uuidGroups, List.map_cons, List.map_nil, List.cons.injEq, and_true] at h2
    simp only [uuidGroups, List.all_cons, List.all_nil, Bool.and_true, Bool.and_eq_true] at h3
    obtain ⟨a, b, c, d, e⟩ := h2
    obtain ⟨a', b', c', d', e'⟩ := h3
    exact ⟨a, b, c, d, e, a', b', c', d', e'⟩

/-- C3 (identifier format): for a canonical UUID string, `newHash` returns the first 24
hexadecimal digits of the UUID in upper case: exactly 24 characters, each in `0-9` or
`A-F`. -/
theorem newHash_format (uuid : String) (h : isCanonicalUUID uuid = true) :
    newHash uuid = ⟨((hexDigitsOf uuid).take 24).map toupper⟩ ∧
    (newHash uuid).length = 24 ∧
    (newHash uuid).data.all isUpperHexDigit = true := by
  obtain ⟨g1, g2, g3, g4, g5, hs, l1, l2, l3, l4, l5, x1, x2, x3, x4, x5⟩ :=
    canonical_groups uuid h
  have hsep : uuid.data.filter (fun c => !isSeparator c) = g1 ++ (g2 ++ (g3 ++ (g4 ++ g5))) := by
    have hd : (!isSeparator '-') = false := by decide
    rw [hs]
    simp only [List.filter_append, List.filter_cons, hd, filter_sep_hex, x1, x2, x3, x4, x5]
    simp
  have hhex : hexDigitsOf uuid = g1 ++ (g2 ++ (g3 ++ (g4 ++ g5))) := by
    unfold hexDigitsOf
    rw [hs]
    have : isHexDigit '-' = false := by decide
    simp [List.filter_append, List.filter_cons, this, filter_hex_hex, x1, x2, x3, x4, x5]
  have hall : (g1 ++ (g2 ++ (g3 ++ (g4 ++ g5)))).all isHexDigit = true := by
    simp [List.all_append, x1, x2, x3, x4, x5]
  have hnew : newHash uuid = ⟨((hexDigitsOf uuid).take 24).map toupper⟩ := by
    unfold newHash resize
    simp only [hsep, hhex, String.length, List.length_append, l1, l2, l3, l4, l5]
    simp
  refine ⟨hnew, ?_, ?_⟩
  · rw [hnew, hhex]
    simp [String.length, List.length_take, l1, l2, l3, l4, l5]
  · rw [hnew, hhex]
    rw [List.all_eq_true]
    intro c hc
    simp only [List.mem_map] at hc
    obtain ⟨d, hd, rfl⟩ := hc
    exact toupper_hex d (List.all_eq_true.mp hall d (List.mem_of_mem_take hd))

/-- Witness, at a concrete UUID. -/
theorem newHash_format_witness :
    isCanonicalUUID "123e4567-e89b-12d3-a456-426614174000" = true ∧
    newHash "123e4567-e89b-12d3-a456-426614174000" = "123E4567E89B12D3A4564266" :=
  ⟨by decide, (newHash_format "123e4567-e89b-12d3-a456-426614174000" (by decide)).1.trans
    (by decide)⟩

/-! ## Lemmas on `replace` -/

theorem stdFind_at (done rest : List Char) (find : String) :
    stdFind ⟨done ++ rest⟩ find done.length = stdFindFrom find.data rest done.length := by
  unfold stdFind
  simp only [String.length_mk, List.length_append]
  rw [if_neg (by omega), List.drop_left]

theorem stdReplace_at (done rest : List Char) (len : Nat) (str : String) :
    stdReplace ⟨done ++ rest⟩ done.length len str = ⟨done ++ str.data ++ rest.drop len⟩ := by
  simp [stdReplace, List.take_append_eq_append_take, List.drop_append_eq_append_drop,
    List.drop_eq_nil_of_le]

theorem replaceLoop_skip (find replaceStr : String) (fuel : Nat) (done : List Char)
    (c : Char) (cs : List Char) (h : find.data.isPrefixOf (c :: cs) = false) :
    replaceLoop find replaceStr fuel ⟨done ++ c :: cs⟩ done.length
      = replaceLoop find replaceStr fuel ⟨(done ++ [c]) ++ cs⟩ (done ++ [c]).length := by
  cases fuel with
  | zero => simp [replaceLoop]
  | succ f =>
    have e : (⟨done ++ c :: cs⟩ : String) = ⟨(done ++ [c]) ++ cs⟩ := by simp
    unfold replaceLoop
    rw [stdFind_at done (c :: cs) find, e, stdFind_at (done ++ [c]) cs find]
    simp [stdFindFrom, h]

theorem replaceLoop_hit (find replaceStr : String) (fuel : Nat) (done : List Char)
    (c : Char) (cs : List Char) (h : find.data.isPrefixOf (c :: cs) = true) :
    replaceLoop find replaceStr (fuel + 1) ⟨done ++ c :: cs⟩ done.length
      = replaceLoop find replaceStr fuel
          ⟨(done ++ replaceStr.data) ++ (c :: cs).drop find.length⟩
          (done ++ replaceStr.data).length := by
  rw [replaceLoop, stdFind_at done (c :: cs) find]
  simp only [stdFindFrom, h, if_true]
  rw [stdReplace_at]
  simp only [String.length_mk, List.length_append, List.append_assoc]
  rfl

theorem replaceLoop_end (find replaceStr : String) (fuel : Nat) (done : List Char)
    (h : find.data.isPrefixOf [] = false) :
    replaceLoop find replaceStr (fuel + 1) ⟨done⟩ done.length = some ⟨done⟩ := by
  have := stdFind_at done [] find
  simp only [List.append_nil] at this
  rw [replaceLoop, this]
  simp [stdFindFrom, h]

theorem replaceLoop_quote (rest : List Char) :
    ∀ (done : List Char) (fuel : Nat), rest.length + 1 ≤ fuel →
      replaceLoop "\"" "\\\"" fuel ⟨done ++ rest⟩ done.length
        = some ⟨done ++ rest.flatMap (fun c => if c = '"' then ['\\', '"'] else [c])⟩ := by
  induction rest with
  | nil =>
    intro done fuel hf
    obtain ⟨f, rfl⟩ : ∃ f, fuel = f + 1 := ⟨fuel - 1, by simp at hf; omega⟩
    simpa using replaceLoop_end "\"" "\\\"" f done (by decide)
  | cons c cs ih =>
    intro done fuel hf
    simp only [List.length_cons] at hf
    by_cases hc : c = '"'
    · subst hc
      obtain ⟨f, rfl⟩ : ∃ f, fuel = f + 1 := ⟨fuel - 1, by omega⟩
      rw [replaceLoop_hit _ _ _ _ _ _ (by simp [List.isPrefixOf])]
      have := ih (done ++ ['\\', '"']) f (by omega)
      simpa using this
    · have hp : ("\"" : String).data.isPrefixOf (c :: cs) = false := by
        simp [List.isPrefixOf, Ne.symm hc]
      rw [replaceLoop_skip _ _ _ _ _ _ hp]
      have := ih (done ++ [c]) fuel (by omega)
      simpa [hc] using this

theorem replace_quote (v : String) : replace v "\"" "\\\"" = escapeQuotes v := by
  have h := replaceLoop_quote v.data [] (v.length + 1) (Nat.le_refl _)
  simp only [List.nil_append, List.length_nil] at h
  have hq : ("\"" : String).length ≠ 0 := by decide
  unfold replace
  rw [if_neg hq, h]
  rfl

theorem replace_empty (v r : String) : replace v "" r = v := by
  unfold replace
  exact if_pos (by decide)

/-! ## Lemmas on the loops of `writeSetting` -/

theorem addTabs_eq (n : Nat) : ∀ s : String, addTabs n s = s ++ ⟨List.replicate n '\t'⟩ := by
  induction n with
  | zero => intro s; apply String.ext; simp [addTabs]
  | succ n ih =>
    intro s
    rw [addTabs, ih]
    apply String.ext
    simp [List.replicate_succ]

theorem addTabs_newline (n : Nat) : addTabs n "\n" = NL n := by
  rw [addTabs_eq]
  rfl

theorem NL_length (n : Nat) : (NL n).length = n + 1 := by
  simp [NL]

theorem resize_NL (n : Nat) (h : 1 ≤ n) : resize (NL n) ((NL n).length - 1) = NL (n - 1) := by
  obtain ⟨m, rfl⟩ : ∃ m, n = m + 1 := ⟨n - 1, by omega⟩
  rw [NL_length]
  apply String.ext
  simp [resize, NL, List.take_replicate]

theorem intercalate_go_append (sep : String) (l : List String) :
    ∀ x acc : String, String.intercalate.go (x ++ acc) sep l
      = x ++ String.intercalate.go acc sep l := by
  induction l with
  | nil => intro x acc; rfl
  | cons a as ih =>
    intro x acc
    simp only [String.intercalate.go]
    rw [String.append_assoc, String.append_assoc, ih, String.append_assoc]

theorem append_intercalate_cons (sep x a : String) (as : List String) :
    String.intercalate.go (x ++ a) sep as = x ++ String.intercalate sep (a :: as) := by
  rw [intercalate_go_append]
  rfl

theorem append_commentSuffix (output c : String) :
    (if ¬ c = "" then output ++ (" /* " ++ c ++ " */") else output)
      = output ++ commentSuffix c := by
  unfold commentSuffix
  by_cases h : c = "" <;> simp [h]

theorem listLoop_pos (quote escape_quote newline : String) (es : List Entry) :
    ∀ (output : String) (count : Nat), 0 < count →
      listLoop quote escape_quote newline es output count
        = String.intercalate.go output ("," ++ newline)
            ((es.filter (fun e => e.value ≠ "")).map (fun e =>
              quote ++ replace e.value quote escape_quote ++ quote ++ commentSuffix e.comment)) := by
  induction es with
  | nil => intro output count _; rfl
  | cons e es ih =>
    intro output count hc
    by_cases hv : e.value = ""
    · simp only [listLoop, hv, ne_eq, not_true_eq_false, if_false, List.filter_cons,
        decide_False, Bool.false_eq_true]
      exact ih output count hc
    · simp only [listLoop, hv, ne_eq, not_false_eq_true, if_true, List.filter_cons, hc,
        decide_True, List.map_cons, String.intercalate.go, gt_iff_lt]
      rw [ih _ _ (Nat.succ_pos _), append_commentSuffix]
      simp only [String.append_assoc]

theorem listLoop_zero (quote escape_quote newline : String) (es : List Entry) :
    ∀ output : String,
      listLoop quote escape_quote newline es output 0
        = output ++ String.intercalate ("," ++ newline)
            ((es.filter (fun e => e.value ≠ "")).map (fun e =>
              quote ++ replace e.value quote escape_quote ++ quote ++ commentSuffix e.comment)) := by
  induction es with
  | nil => intro output; simp [listLoop, String.intercalate]
  | cons e es ih =>
    intro output
    by_cases hv : e.value = ""
    · simp only [listLoop, hv, ne_eq, not_true_eq_false, if_false, List.filter_cons,
        decide_False, Bool.false_eq_true]
      exact ih output
    · simp only [listLoop, hv, ne_eq, not_false_eq_true, if_true, List.filter_cons,
        decide_True, List.map_cons, gt_iff_lt, Nat.lt_irrefl, if_false]
      rw [listLoop_pos _ _ _ _ _ _ (Nat.succ_pos _), append_commentSuffix,
        String.append_assoc, append_intercalate_cons]

theorem scalarLoop_pos (es : List Entry) :
    ∀ (i : Nat) (output : String), i ≠ 0 →
      scalarLoop es i output
        = String.intercalate.go output " " (es.map (fun e => e.value ++ commentSuffix e.comment)) := by
  induction es with
  | nil => intro i output _; rfl
  | cons e es ih =>
    intro i output hi
    simp only [scalarLoop, hi, ne_eq, not_false_eq_true, if_true, List.map_cons,
      String.intercalate.go]
    rw [ih _ _ (Nat.succ_ne_zero _), append_commentSuffix]
    simp only [String.append_assoc]

theorem scalarLoop_zero (es : List Entry) (output : String) :
    scalarLoop es 0 output
      = output ++ String.intercalate " " (es.map (fun e => e.value ++ commentSuffix e.comment)) := by
  cases es with
  | nil => simp [scalarLoop, String.intercalate]
  | cons e es =>
    simp only [scalarLoop, ne_eq, not_true_eq_false, if_false, List.map_cons]
    rw [scalarLoop_pos _ _ _ (Nat.succ_ne_zero _), append_commentSuffix,
      String.append_assoc, append_intercalate_cons]

/-! ## Closed forms of `writeSetting` -/

theorem writeSetting_quote (flags : Nat) :
    (if (if flags &&& SettingsNoQuote ≠ 0 then "" else "\"") = "" then ""
      else "\\" ++ (if flags &&& SettingsNoQuote ≠ 0 then "" else "\"")) = escapedQuoteMark flags := by
  unfold escapedQuoteMark
  by_cases h : flags &&& SettingsNoQuote = 0
  · simp only [h, ne_eq, not_true_eq_false, if_false]
    decide
  · simp [h]

theorem writeSetting_asList (name : String) (s : Setting)
    (hl : s.flags &&& SettingsAsList ≠ 0) :
    writeSetting name s
      = renderedName name s.flags
        ++ (if s.flags &&& SettingsNoValue ≠ 0 then "(" else " = (")
        ++ NL s.indent.toNat
        ++ String.intercalate ("," ++ NL s.indent.toNat)
            ((s.entries.filter (fun e => e.value ≠ "")).map (fun e =>
              quoteMark s.flags ++ replace e.value (quoteMark s.flags) (escapedQuoteMark s.flags)
                ++ quoteMark s.flags ++ commentSuffix e.comment))
        ++ (if s.flags &&& SettingsNoValue ≠ 0 then "\t\t\t)"
            else "," ++ resize (NL s.indent.toNat) ((NL s.indent.toNat).length - 1) ++ ")") := by
  unfold writeSetting
  simp only [hl, if_true, ne_eq, not_false_eq_true]
  rw [addTabs_newline, listLoop_zero]
  simp only [← ne_eq, writeSetting_quote]
  rfl

theorem writeSetting_scalar (name : String) (s : Setting)
    (hl : s.flags &&& SettingsAsList = 0) :
    writeSetting name s
      = renderedName name s.flags
        ++ (if s.flags &&& SettingsNoValue ≠ 0 then "" else " = " ++ quoteMark s.flags)
        ++ String.intercalate " " (s.entries.map (fun e => e.value ++ commentSuffix e.comment))
        ++ (if s.flags &&& SettingsNoValue ≠ 0 then "" else quoteMark s.flags) := by
  unfold writeSetting
  simp only [hl, ne_eq, not_true_eq_false, if_false]
  rw [scalarLoop_zero]
  rfl

theorem writeSetting_scalar_single (name v c : String) (s : Setting)
    (hl : s.flags &&& SettingsAsList = 0) (hv : s.flags &&& SettingsNoValue = 0)
    (he : s.entries = [⟨v, c⟩]) :
    writeSetting name s
      = renderedName name s.flags ++ " = " ++ quoteMark s.flags ++ v ++ commentSuffix c
        ++ quoteMark s.flags := by
  rw [writeSetting_scalar name s hl, he]
  simp only [hv, ne_eq, not_true_eq_false, if_false, List.map_cons, List.map_nil,
    String.intercalate, String.intercalate.go, String.append_assoc]

/-! ## Claims on `writeSetting` -/

/-- C4 (scalar rendering), evaluated where the code departs from it: a quoted scalar with
a comment is rendered with the comment before the closing quote, not after it, whereas
the list branch puts the comment of the same entry after the closing quote. -/
theorem writeSetting_scalar_comment_inside_quotes :
    writeSetting "name" ⟨[⟨"value", "comment"⟩], 0, 0, -1⟩
      = "name = \"value /* comment */\"" ∧
    writeSetting "name" ⟨[⟨"value", "comment"⟩], 0, 0, -1⟩
      ≠ "name" ++ " = " ++ "\"" ++ "value" ++ "\"" ++ " /* comment */" ∧
    writeSetting "name" ⟨[⟨"value", "comment"⟩], SettingsAsList, 1, -1⟩
      = "name = (\n\t\"value\" /* comment */,\n)" := by
  decide

/-- C5, as stated, fails: under `SettingsNoValue` the value text of the entry is still
written, between the name and the comment. -/
theorem writeSetting_noValue_emits_value :
    SettingsNoValue &&& SettingsNoValue ≠ 0 ∧ SettingsNoValue &&& SettingsAsList = 0 ∧
    writeSetting "name" ⟨[⟨"value", "comment"⟩], SettingsNoValue, 0, -1⟩
      = "namevalue /* comment */" ∧
    writeSetting "name" ⟨[⟨"value", "comment"⟩], SettingsNoValue, 0, -1⟩
      ≠ "name" ++ " /* comment */" := by
  decide

/-- C5 (no-value rule, amended): a Setting with `SettingsNoValue` and without
`SettingsAsList` is rendered as the (possibly quoted) name followed by its entries, each
entry being its value text and then its comment when there is one, entries separated by
a space; neither `" = "` nor quote marks are added. With one entry of empty value the
output is the name followed by the comment. -/
theorem writeSetting_noValue (name : String) (s : Setting)
    (hl : s.flags &&& SettingsAsList = 0) (hv : s.flags &&& SettingsNoValue ≠ 0) :
    writeSetting name s
      = renderedName name s.flags
        ++ String.intercalate " " (s.entries.map (fun e => e.value ++ commentSuffix e.comment)) ∧
    (∀ c, s.entries = [⟨"", c⟩] →
      writeSetting name s = renderedName name s.flags ++ commentSuffix c) := by
  have h := writeSetting_scalar name s hl
  simp only [hv, ne_eq, not_false_eq_true, if_true, String.append_empty] at h
  refine ⟨h, ?_⟩
  intro c hc
  rw [h, hc]
  simp [String.intercalate, String.intercalate.go]

/-- Witness, the marker of a build phase. -/
theorem writeSetting_noValue_witness :
    writeSetting "0123456789ABCDEF01234567" ⟨[⟨"", "Resources"⟩], SettingsNoValue, 0, 0⟩
      = "0123456789ABCDEF01234567 /* Resources */" :=
  ((writeSetting_noValue "0123456789ABCDEF01234567" ⟨[⟨"", "Resources"⟩], SettingsNoValue, 0, 0⟩
    (by decide) (by decide)).2 "Resources" rfl).trans (by decide)

/-- C6 (quote escaping of a quoted scalar), evaluated where the code departs from it: the
scalar branch writes a double quote of the value as it is, so the rendered value holds an
unescaped quote between the opening and the closing one; the list branch escapes the
same value. -/
theorem writeSetting_scalar_quote_not_escaped :
    writeSetting "name" ⟨[⟨"a\"b", ""⟩], 0, 0, -1⟩ = "name = \"a\"b\"" ∧
    writeSetting "name" ⟨[⟨"a\"b", ""⟩], 0, 0, -1⟩
      ≠ "name" ++ " = " ++ "\"" ++ escapeQuotes "a\"b" ++ "\"" ∧
    writeSetting "name" ⟨[⟨"a\"b", ""⟩], SettingsAsList, 1, -1⟩ = "name = (\n\t\"a\\\"b\",\n)" := by
  decide

/-- C7 (quote escaping of list entries): in a list Setting without `SettingsNoQuote`,
every entry of non-empty value `v` is written as a double quote, `replace(v, ", \")`, a
double quote (then its comment), and `replace(v, ", \")` is `v` with a backslash inserted
before every double quote. -/
theorem writeSetting_list_escapes (name : String) (s : Setting)
    (hl : s.flags &&& SettingsAsList ≠ 0) (hq : s.flags &&& SettingsNoQuote = 0) :
    writeSetting name s
      = renderedName name s.flags
        ++ (if s.flags &&& SettingsNoValue ≠ 0 then "(" else " = (")
        ++ NL s.indent.toNat
        ++ String.intercalate ("," ++ NL s.indent.toNat)
            ((s.entries.filter (fun e => e.value ≠ "")).map (fun e =>
              "\"" ++ replace e.value "\"" "\\\"" ++ "\"" ++ commentSuffix e.comment))
        ++ (if s.flags &&& SettingsNoValue ≠ 0 then "\t\t\t)"
            else "," ++ resize (NL s.indent.toNat) ((NL s.indent.toNat).length - 1) ++ ")") ∧
    (∀ v : String, replace v "\"" "\\\"" = escapeQuotes v) := by
  refine ⟨?_, replace_quote⟩
  have h := writeSetting_asList name s hl
  simpa only [quoteMark, escapedQuoteMark, hq, ne_eq, not_true_eq_false, if_false] using h

/-- Witness, a search path that holds double quotes. -/
theorem writeSetting_list_escapes_witness :
    writeSetting "LIBRARY_SEARCH_PATHS"
        ⟨[⟨"$(inherited)", ""⟩, ⟨"\"$(SRCROOT)/lib\"", ""⟩], SettingsAsList, 5, -1⟩
      = "LIBRARY_SEARCH_PATHS = (\n\t\t\t\t\t\"$(inherited)\",\n\t\t\t\t\t"
        ++ "\"\\\"$(SRCROOT)/lib\\\"\",\n\t\t\t\t)" ∧
    replace "\"$(SRCROOT)/lib\"" "\"" "\\\"" = "\\\"$(SRCROOT)/lib\\\"" :=
  ⟨(writeSetting_list_escapes "LIBRARY_SEARCH_PATHS"
      ⟨[⟨"$(inherited)", ""⟩, ⟨"\"$(SRCROOT)/lib\"", ""⟩], SettingsAsList, 5, -1⟩
      (by decide) (by decide)).1.trans (by decide),
   ((writeSetting_list_escapes "LIBRARY_SEARCH_PATHS"
      ⟨[⟨"$(inherited)", ""⟩, ⟨"\"$(SRCROOT)/lib\"", ""⟩], SettingsAsList, 5, -1⟩
      (by decide) (by decide)).2 _).trans (by decide)⟩

/-- C8 (list skip rule): a list Setting renders as the same Setting with every entry of
empty value removed. -/
theorem writeSetting_list_skips_empty (name : String) (s : Setting)
    (hl : s.flags &&& SettingsAsList ≠ 0) :
    writeSetting name s
      = writeSetting name ⟨s.entries.filter (fun e => e.value ≠ ""), s.flags, s.indent, s.order⟩ := by
  have h := writeSetting_asList name
    ⟨s.entries.filter (fun e => e.value ≠ ""), s.flags, s.indent, s.order⟩ hl
  rw [writeSetting_asList name s hl, h]
  simp only [List.filter_filter, Bool.and_self]

/-- Witness, entries of empty value, with and without a
comment, between two entries that are written. -/
theorem writeSetting_list_skips_empty_witness :
    writeSetting "n" ⟨[⟨"a", ""⟩, ⟨"", "lost"⟩, ⟨"", ""⟩, ⟨"b", "kept"⟩], SettingsAsList, 1, -1⟩
      = writeSetting "n" ⟨[⟨"a", ""⟩, ⟨"b", "kept"⟩], SettingsAsList, 1, -1⟩ ∧
    writeSetting "n" ⟨[⟨"a", ""⟩, ⟨"b", "kept"⟩], SettingsAsList, 1, -1⟩
      = "n = (\n\t\"a\",\n\t\"b\" /* kept */,\n)" :=
  ⟨writeSetting_list_skips_empty "n"
    ⟨[⟨"a", ""⟩, ⟨"", "lost"⟩, ⟨"", ""⟩, ⟨"b", "kept"⟩], SettingsAsList, 1, -1⟩ (by decide),
   by decide⟩

/-- C9 (list Setting rendering): a list Setting without `SettingsNoValue` and of indent
`n ≥ 1` renders as the name, ` = (`, a line break and `n` tabs, the entries of non-empty
value (quoted and escaped unless `SettingsNoQuote`, each followed by its comment) joined by
a comma, a line break and `n` tabs, then a comma, a line break, `n - 1` tabs and `)`;
so also when no entry is written. -/
theorem writeSetting_list (name : String) (s : Setting)
    (hl : s.flags &&& SettingsAsList ≠ 0) (hv : s.flags &&& SettingsNoValue = 0)
    (hn : 1 ≤ s.indent) :
    writeSetting name s
      = renderedName name s.flags ++ " = (" ++ NL s.indent.toNat
        ++ String.intercalate ("," ++ NL s.indent.toNat)
            ((s.entries.filter (fun e => e.value ≠ "")).map (fun e =>
              quoteMark s.flags ++ replace e.value (quoteMark s.flags) (escapedQuoteMark s.flags)
                ++ quoteMark s.flags ++ commentSuffix e.comment))
        ++ "," ++ NL (s.indent.toNat - 1) ++ ")" := by
  have h := writeSetting_asList name s hl
  have hn' : 1 ≤ s.indent.toNat := by omega
  rw [resize_NL _ hn'] at h
  simp only [hv, ne_eq, not_true_eq_false, if_false] at h
  rw [h]
  simp only [String.append_assoc]

/-- Witness, a list without entries, and a list of two. -/
theorem writeSetting_list_witness :
    writeSetting "n" ⟨[], SettingsAsList, 2, -1⟩ = "n = (\n\t\t,\n\t)" ∧
    writeSetting "HEADER_SEARCH_PATHS" ⟨[⟨"../../engines/", ""⟩, ⟨"../../", ""⟩],
        SettingsAsList ||| SettingsNoQuote, 5, -1⟩
      = "HEADER_SEARCH_PATHS = (\n\t\t\t\t\t../../engines/,\n\t\t\t\t\t../../,\n\t\t\t\t)" :=
  ⟨(writeSetting_list "n" ⟨[], SettingsAsList, 2, -1⟩ (by decide) (by decide)
      (by decide)).trans (by decide),
   (writeSetting_list "HEADER_SEARCH_PATHS" ⟨[⟨"../../engines/", ""⟩, ⟨"../../", ""⟩],
      SettingsAsList ||| SettingsNoQuote, 5, -1⟩ (by decide) (by decide)
      (by decide)).trans (by decide)⟩

/-! ## Claims on `writeProperty` -/

/-- C10 (collapsing law): a Property that holds exactly one Setting and lacks
`SettingsSingleItem` renders as the indent prefix, the variable, ` = `, the Setting
rendered alone, `;` and a line break (a space, and no prefix, when the `flags` argument
has `SettingsSingleItem`), with no wrapping block. -/
theorem writeProperty_single (varName k : String) (s : Setting) (prop : Property)
    (flags : Nat) (hs : prop.settings = [(k, s)])
    (hf : prop.flags &&& SettingsSingleItem = 0) :
    writeProperty varName prop flags
      = (if flags &&& SettingsSingleItem ≠ 0 then "" else "\t\t\t") ++ varName ++ " = "
        ++ writeSetting k s ++ ";"
        ++ (if flags &&& SettingsSingleItem ≠ 0 then " " else "\n") := by
  have ho : prop.getOrderedSettingList = [(k, s)] := by
    unfold Property.getOrderedSettingList
    rw [hs]
    cases prop.hasOrder <;> simp [orderedInsert]
  unfold writeProperty
  simp only [ho, hs, hf, List.length_singleton, propertyLoop, gt_iff_lt, Nat.lt_irrefl,
    ne_eq, not_true_eq_false, or_self, and_false, if_false]

/-- Witness, an unquoted scalar Setting in a plain Property. -/
theorem writeProperty_single_witness :
    writeProperty "isa" ⟨[("PBXProject", ⟨[⟨"", ""⟩], SettingsNoValue, 0, -1⟩)], 0, false⟩ 0
      = "\t\t\tisa = PBXProject;\n" :=
  (writeProperty_single "isa" "PBXProject" ⟨[⟨"", ""⟩], SettingsNoValue, 0, -1⟩
    ⟨[("PBXProject", ⟨[⟨"", ""⟩], SettingsNoValue, 0, -1⟩)], 0, false⟩ 0 rfl
    (by decide)).trans (by decide)

/-! ## Closed form of `writeProperty` -/

theorem join_cons (a : String) (l : List String) : String.join (a :: l) = a ++ String.join l := by
  apply String.ext
  simp [String.data_join]

theorem propertyLoop_eq (prop : Property) (flags size : Nat) (rest : List (String × Setting)) :
    ∀ output : String,
      propertyLoop prop flags size rest output
        = output ++ String.join (rest.map (memberText prop flags size)) := by
  induction rest with
  | nil => intro output; simp [propertyLoop, String.join]
  | cons q rest ih =>
    intro output
    rw [propertyLoop, ih, List.map_cons, join_cons, ← String.append_assoc]
    congr 1
    unfold memberText
    by_cases h1 : size > 1 ∨ prop.flags &&& SettingsSingleItem ≠ 0 <;>
      by_cases h2 : prop.flags &&& SettingsAsList ≠ 0 ∧ prop.settings.length > 1
    · simp only [if_pos h1, if_pos h2, String.append_assoc]
    · simp only [if_pos h1, if_neg h2, String.append_assoc]
    · simp only [if_neg h1, if_pos h2, String.append_assoc, String.empty_append]
    · simp only [if_neg h1, if_neg h2, String.append_assoc, String.empty_append]

theorem orderedInsert_perm (p : String × Setting) (l : List (String × Setting)) :
    (orderedInsert p l).Perm (p :: l) := by
  induction l with
  | nil => exact List.Perm.refl _
  | cons q rest ih =>
    unfold orderedInsert
    by_cases h : p.2.order < q.2.order
    · simp [h]
    · simp only [h, if_false]
      exact (List.Perm.cons q ih).trans (List.Perm.swap p q rest)

theorem foldl_orderedInsert_perm (l : List (String × Setting)) :
    ∀ acc : List (String × Setting),
      (l.foldl (fun acc p => orderedInsert p acc) acc).Perm (l ++ acc) := by
  induction l with
  | nil => intro acc; exact List.Perm.refl _
  | cons q rest ih =>
    intro acc
    simp only [List.foldl_cons]
    refine (ih _).trans ?_
    refine (List.Perm.append_left rest (orderedInsert_perm q acc)).trans ?_
    simp

theorem getOrderedSettingList_perm (prop : Property) :
    prop.getOrderedSettingList.Perm prop.settings := by
  unfold Property.getOrderedSettingList
  cases prop.hasOrder with
  | false => exact List.Perm.refl _
  | true => simpa using foldl_orderedInsert_perm prop.settings []

theorem getOrderedSettingList_length (prop : Property) :
    prop.getOrderedSettingList.length = prop.settings.length :=
  (getOrderedSettingList_perm prop).length_eq

theorem writeProperty_eq (varName : String) (prop : Property) (flags : Nat) :
    writeProperty varName prop flags
      = (if flags &&& SettingsSingleItem ≠ 0 then "" else "\t\t\t") ++ varName ++ " = "
        ++ (if prop.settings.length > 1 ∨ prop.flags &&& SettingsSingleItem ≠ 0 then
              (if prop.flags &&& SettingsAsList ≠ 0 then "(\n" else "\x7b\n")
            else "")
        ++ String.join (prop.getOrderedSettingList.map
              (memberText prop flags prop.settings.length))
        ++ (if prop.settings.length > 1 ∨ prop.flags &&& SettingsSingleItem ≠ 0 then
              (if prop.flags &&& SettingsAsList ≠ 0 then "\t\t\t);\n" else "\t\t\t\x7d;\n")
            else "") := by
  unfold writeProperty
  simp only [propertyLoop_eq, getOrderedSettingList_length]
  by_cases h : prop.settings.length > 1 ∨ prop.flags &&& SettingsSingleItem ≠ 0
  · simp only [if_pos h]
  · simp only [if_neg h, String.append_empty]

/-- C11 (wrapping rule): a Property that holds more than one Setting, or whose flags have
`SettingsSingleItem`, renders as the indent prefix, the variable, ` = `, the opener `(`
under `SettingsAsList` and `{` otherwise, one member per Setting (member indent, the
Setting rendered, terminator), and the closer of the same kind as the opener. -/
theorem writeProperty_wrapped (varName : String) (prop : Property) (flags : Nat)
    (hw : prop.settings.length > 1 ∨ prop.flags &&& SettingsSingleItem ≠ 0) :
    prop.getOrderedSettingList.length = prop.settings.length ∧
    writeProperty varName prop flags
      = (if flags &&& SettingsSingleItem ≠ 0 then "" else "\t\t\t") ++ varName ++ " = "
        ++ (if prop.flags &&& SettingsAsList ≠ 0 then "(\n" else "\x7b\n")
        ++ String.join (prop.getOrderedSettingList.map (fun setting =>
              (if flags &&& SettingsSingleItem ≠ 0 then " " else "\t\t\t\t")
              ++ writeSetting setting.1 setting.2
              ++ (if prop.flags &&& SettingsAsList ≠ 0 ∧ prop.settings.length > 1 then ",\n"
                  else ";" ++ (if flags &&& SettingsSingleItem ≠ 0 then " " else "\n"))))
        ++ (if prop.flags &&& SettingsAsList ≠ 0 then "\t\t\t);\n" else "\t\t\t\x7d;\n") := by
  refine ⟨getOrderedSettingList_length prop, ?_⟩
  rw [writeProperty_eq]
  simp only [if_pos hw]
  congr 2
  apply congrArg
  apply List.map_congr_left
  intro setting _
  unfold memberText
  by_cases h2 : prop.flags &&& SettingsAsList ≠ 0 ∧ prop.settings.length > 1
  · have hpos : prop.settings.length > 0 := by omega
    simp only [if_pos hw, if_pos h2, if_pos hpos]
  · simp only [if_pos hw, if_neg h2]

/-- Witness, a dictionary of two Settings and a single-item list. -/
theorem writeProperty_wrapped_witness :
    writeProperty "buildSettings"
        ⟨[("PREBINDING", ⟨[⟨"NO", ""⟩], SettingsNoQuote, 0, -1⟩),
          ("SDKROOT", ⟨[⟨"macosx10.6", ""⟩], SettingsNoQuote, 0, -1⟩)], 0, false⟩ 0
      = "\t\t\tbuildSettings = \x7b\n\t\t\t\tPREBINDING = NO;\n"
        ++ "\t\t\t\tSDKROOT = macosx10.6;\n\t\t\t\x7d;\n" ∧
    writeProperty "files"
        ⟨[("0123456789ABCDEF01234567", ⟨[⟨"", "a.c in Sources"⟩], SettingsNoValue, 0, 0⟩)],
          SettingsAsList ||| SettingsSingleItem, true⟩ 0
      = "\t\t\tfiles = (\n\t\t\t\t0123456789ABCDEF01234567 /* a.c in Sources */;\n\t\t\t);\n" :=
  ⟨(writeProperty_wrapped "buildSettings"
      ⟨[("PREBINDING", ⟨[⟨"NO", ""⟩], SettingsNoQuote, 0, -1⟩),
        ("SDKROOT", ⟨[⟨"macosx10.6", ""⟩], SettingsNoQuote, 0, -1⟩)], 0, false⟩ 0
      (by decide)).2.trans (by decide),
   (writeProperty_wrapped "files"
      ⟨[("0123456789ABCDEF01234567", ⟨[⟨"", "a.c in Sources"⟩], SettingsNoValue, 0, 0⟩)],
        SettingsAsList ||| SettingsSingleItem, true⟩ 0
      (by decide)).2.trans (by decide)⟩

theorem join_nil : String.join [] = "" := rfl

theorem getOrderedSettingList_single (prop : Property) (k : String) (s : Setting)
    (hs : prop.settings = [(k, s)]) : prop.getOrderedSettingList = [(k, s)] := by
  unfold Property.getOrderedSettingList
  rw [hs]
  cases prop.hasOrder <;> simp [orderedInsert]

/-- C12, as stated, fails: a Property flagged `SettingsAsList` that holds one scalar
Setting and lacks `SettingsSingleItem` is collapsed, no bracket is written. -/
theorem writeProperty_single_list_collapsed :
    SettingsAsList &&& SettingsAsList ≠ 0 ∧
    writeProperty "buildConfigurations"
        ⟨[("0123456789ABCDEF01234567", ⟨[⟨"", "Debug"⟩], SettingsNoValue, 0, 0⟩)],
          SettingsAsList, false⟩ 0
      = "\t\t\tbuildConfigurations = 0123456789ABCDEF01234567 /* Debug */;\n" ∧
    '(' ∉ (writeProperty "buildConfigurations"
        ⟨[("0123456789ABCDEF01234567", ⟨[⟨"", "Debug"⟩], SettingsNoValue, 0, 0⟩)],
          SettingsAsList, false⟩ 0).data := by
  decide

/-- C12 (single-member list Property, amended): a Property flagged `SettingsAsList` that
holds exactly one Setting is rendered with the list brackets `(` and `);` when its flags
also have `SettingsSingleItem`; without `SettingsSingleItem` it is collapsed to the
Setting rendered alone, so a bracket appears only if the Setting itself renders one. -/
theorem writeProperty_single_list (varName k : String) (s : Setting) (prop : Property)
    (flags : Nat) (hl : prop.flags &&& SettingsAsList ≠ 0) (hs : prop.settings = [(k, s)]) :
    (prop.flags &&& SettingsSingleItem ≠ 0 →
      writeProperty varName prop flags
        = (if flags &&& SettingsSingleItem ≠ 0 then "" else "\t\t\t") ++ varName ++ " = "
          ++ "(\n"
          ++ (if flags &&& SettingsSingleItem ≠ 0 then " " else "\t\t\t\t")
          ++ writeSetting k s ++ ";"
          ++ (if flags &&& SettingsSingleItem ≠ 0 then " " else "\n")
          ++ "\t\t\t);\n") ∧
    (prop.flags &&& SettingsSingleItem = 0 →
      writeProperty varName prop flags
        = (if flags &&& SettingsSingleItem ≠ 0 then "" else "\t\t\t") ++ varName ++ " = "
          ++ writeSetting k s ++ ";"
          ++ (if flags &&& SettingsSingleItem ≠ 0 then " " else "\n")) := by
  have hlen : ¬ (prop.settings.length > 1) := by simp [hs]
  constructor
  · intro h1
    have hw : prop.settings.length > 1 ∨ prop.flags &&& SettingsSingleItem ≠ 0 := Or.inr h1
    have h2 : ¬ (prop.flags &&& SettingsAsList ≠ 0 ∧ prop.settings.length > 1) :=
      fun h => hlen h.2
    rw [writeProperty_eq, getOrderedSettingList_single prop k s hs]
    simp only [List.map_cons, List.map_nil, memberText, if_pos hw, if_neg h2, if_pos hl,
      join_cons, join_nil, String.append_empty, String.append_assoc]
  · intro h0
    have hw : ¬ (prop.settings.length > 1 ∨ prop.flags &&& SettingsSingleItem ≠ 0) := by
      intro h
      rcases h with h | h
      · exact hlen h
      · exact h h0
    have h2 : ¬ (prop.flags &&& SettingsAsList ≠ 0 ∧ prop.settings.length > 1) :=
      fun h => hlen h.2
    rw [writeProperty_eq, getOrderedSettingList_single prop k s hs]
    simp only [List.map_cons, List.map_nil, memberText, if_neg hw, if_neg h2,
      join_cons, join_nil, String.append_empty, String.append_assoc,
      String.empty_append]

/-- Witness, the `children` Property of the root group, whose one Setting is itself a
list Setting. -/
theorem writeProperty_single_list_witness :
    writeProperty "children"
        ⟨[("", ⟨[⟨"", ""⟩], SettingsNoValue ||| SettingsAsList, 0, -1⟩)],
          SettingsNoValue ||| SettingsAsList, false⟩ 0
      = "\t\t\tchildren = (\n\t\t\t);\n" :=
  ((writeProperty_single_list "children" "" ⟨[⟨"", ""⟩], SettingsNoValue ||| SettingsAsList, 0, -1⟩
      ⟨[("", ⟨[⟨"", ""⟩], SettingsNoValue ||| SettingsAsList, 0, -1⟩)],
        SettingsNoValue ||| SettingsAsList, false⟩ 0 (by decide) rfl).2 (by decide)).trans
    (by decide)

/-! ## Explicit order -/

theorem orderedInsert_sorted (p : String × Setting) (l : List (String × Setting))
    (h : l.Pairwise (fun a b => a.2.order ≤ b.2.order)) :
    (orderedInsert p l).Pairwise (fun a b => a.2.order ≤ b.2.order) := by
  induction l with
  | nil => simp [orderedInsert]
  | cons q rest ih =>
    rw [List.pairwise_cons] at h
    unfold orderedInsert
    by_cases hlt : p.2.order < q.2.order
    · simp only [hlt, if_true]
      refine List.Pairwise.cons ?_ (List.Pairwise.cons h.1 h.2)
      intro x hx
      rcases List.mem_cons.mp hx with rfl | hx
      · exact Int.le_of_lt hlt
      · exact Int.le_trans (Int.le_of_lt hlt) (h.1 x hx)
    · simp only [hlt, if_false]
      refine List.Pairwise.cons ?_ (ih h.2)
      intro x hx
      rcases List.mem_cons.mp ((orderedInsert_perm p rest).mem_iff.mp hx) with rfl | hx
      · exact Int.not_lt.mp hlt
      · exact h.1 x hx

theorem foldl_orderedInsert_sorted (l : List (String × Setting)) :
    ∀ acc : List (String × Setting), acc.Pairwise (fun a b => a.2.order ≤ b.2.order) →
      (l.foldl (fun acc p => orderedInsert p acc) acc).Pairwise
        (fun a b => a.2.order ≤ b.2.order) := by
  induction l with
  | nil => intro acc h; exact h
  | cons q rest ih =>
    intro acc h
    exact ih _ (orderedInsert_sorted q acc h)

theorem getOrderedSettingList_sorted (prop : Property) (ho : prop.hasOrder = true) :
    prop.getOrderedSettingList.Pairwise (fun a b => a.2.order ≤ b.2.order) := by
  unfold Property.getOrderedSettingList
  rw [if_pos ho]
  exact foldl_orderedInsert_sorted prop.settings [] List.Pairwise.nil

/-- C13 (explicit ordering): for a Property flagged `hasOrder` whose Settings carry pairwise
distinct order indices, the Settings written by `writeProperty` are those of the Property,
each once, in strictly increasing order index, whatever the order in which the store
holds them and whatever their keys. -/
theorem writeProperty_explicit_order (varName : String) (prop : Property) (flags : Nat)
    (ho : prop.hasOrder = true)
    (hd : prop.settings.Pairwise (fun a b => a.2.order ≠ b.2.order)) :
    prop.getOrderedSettingList.Perm prop.settings ∧
    prop.getOrderedSettingList.Pairwise (fun a b => a.2.order < b.2.order) ∧
    writeProperty varName prop flags
      = (if flags &&& SettingsSingleItem ≠ 0 then "" else "\t\t\t") ++ varName ++ " = "
        ++ (if prop.settings.length > 1 ∨ prop.flags &&& SettingsSingleItem ≠ 0 then
              (if prop.flags &&& SettingsAsList ≠ 0 then "(\n" else "\x7b\n")
            else "")
        ++ String.join (prop.getOrderedSettingList.map
              (memberText prop flags prop.settings.length))
        ++ (if prop.settings.length > 1 ∨ prop.flags &&& SettingsSingleItem ≠ 0 then
              (if prop.flags &&& SettingsAsList ≠ 0 then "\t\t\t);\n" else "\t\t\t\x7d;\n")
            else "") := by
  refine ⟨getOrderedSettingList_perm prop, ?_, writeProperty_eq varName prop flags⟩
  have hne : prop.getOrderedSettingList.Pairwise (fun a b => a.2.order ≠ b.2.order) :=
    ((getOrderedSettingList_perm prop).pairwise_iff (fun {a b} h => Ne.symm h)).mpr hd
  exact ((getOrderedSettingList_sorted prop ho).and hne).imp
    (fun {a b} h => Int.lt_iff_le_and_ne.mpr h)

/-- Witness, Settings held in the order of the indices 2, 0, 1 are written in the order
0, 1, 2. -/
theorem writeProperty_explicit_order_witness :
    (Property.getOrderedSettingList
        ⟨[("Frameworks", ⟨[⟨"", ""⟩], SettingsNoValue, 0, 2⟩),
          ("Resources", ⟨[⟨"", ""⟩], SettingsNoValue, 0, 0⟩),
          ("Sources", ⟨[⟨"", ""⟩], SettingsNoValue, 0, 1⟩)], SettingsAsList, true⟩).map Prod.fst
      = ["Resources", "Sources", "Frameworks"] ∧
    writeProperty "buildPhases"
        ⟨[("Frameworks", ⟨[⟨"", ""⟩], SettingsNoValue, 0, 2⟩),
          ("Resources", ⟨[⟨"", ""⟩], SettingsNoValue, 0, 0⟩),
          ("Sources", ⟨[⟨"", ""⟩], SettingsNoValue, 0, 1⟩)], SettingsAsList, true⟩ 0
      = "\t\t\tbuildPhases = (\n\t\t\t\tResources,\n\t\t\t\tSources,\n"
        ++ "\t\t\t\tFrameworks,\n\t\t\t);\n" :=
  ⟨by decide,
   (writeProperty_explicit_order "buildPhases"
      ⟨[("Frameworks", ⟨[⟨"", ""⟩], SettingsNoValue, 0, 2⟩),
        ("Resources", ⟨[⟨"", ""⟩], SettingsNoValue, 0, 0⟩),
        ("Sources", ⟨[⟨"", ""⟩], SettingsNoValue, 0, 1⟩)], SettingsAsList, true⟩ 0
      rfl (by decide)).2.2.trans (by decide)⟩

/-! ## The settings store -/

theorem settingsSet_append (m : List (String × Setting)) (key : String) (setting : Setting)
    (h : key ∉ m.map Prod.fst) : settingsSet m key setting = m ++ [(key, setting)] := by
  induction m with
  | nil => rfl
  | cons q rest ih =>
    obtain ⟨k, s⟩ := q
    simp only [List.map_cons, List.mem_cons, not_or] at h
    simp only [settingsSet, if_neg h.1, ih h.2, List.cons_append]

theorem foldl_settingsSet (kvs : List (String × Setting)) :
    ∀ acc : List (String × Setting), (acc.map Prod.fst ++ kvs.map Prod.fst).Nodup →
      kvs.foldl (fun m kv => settingsSet m kv.1 kv.2) acc = acc ++ kvs := by
  induction kvs with
  | nil => intro acc _; simp
  | cons kv rest ih =>
    intro acc h
    have hk : kv.1 ∉ acc.map Prod.fst := by
      intro hmem
      have := (List.nodup_append.mp h).2.2
      exact this hmem (by simp)
    simp only [List.foldl_cons]
    rw [settingsSet_append acc kv.1 kv.2 hk, ih]
    · simp
    · simpa using h

theorem getOrderedSettingList_unordered (prop : Property) (ho : prop.hasOrder = false) :
    prop.getOrderedSettingList = prop.settings := by
  unfold Property.getOrderedSettingList
  simp [ho]

theorem mapFind_settingsSet_self (m : List (String × Setting)) (key : String)
    (setting : Setting) : mapFind (settingsSet m key setting) key = some setting := by
  induction m with
  | nil => simp [settingsSet, mapFind]
  | cons q rest ih =>
    obtain ⟨k, s⟩ := q
    by_cases h : key = k
    · simp [settingsSet, h, mapFind]
    · simp [settingsSet, h, mapFind, ih]

theorem mapFind_settingsSet_ne (m : List (String × Setting)) (key k2 : String)
    (setting : Setting) (hne : k2 ≠ key) :
    mapFind (settingsSet m key setting) k2 = mapFind m k2 := by
  induction m with
  | nil => simp [settingsSet, mapFind, hne]
  | cons q rest ih =>
    obtain ⟨k, s⟩ := q
    by_cases h : key = k
    · subst h
      simp [settingsSet, mapFind, hne]
    · simp [settingsSet, h, mapFind, ih]

theorem mapFind_settingsErase_self (m : List (String × Setting)) (key : String) :
    mapFind (settingsErase m key) key = none := by
  induction m with
  | nil => rfl
  | cons q rest ih =>
    obtain ⟨k, s⟩ := q
    unfold settingsErase at ih ⊢
    by_cases h : k = key
    · rw [List.filter_cons, if_neg (by simpa using h)]
      exact ih
    · rw [List.filter_cons, if_pos (by simpa using h)]
      simp only [mapFind, if_neg (Ne.symm h)]
      exact ih

theorem mapFind_settingsErase_ne (m : List (String × Setting)) (key k2 : String)
    (hne : k2 ≠ key) : mapFind (settingsErase m key) k2 = mapFind m k2 := by
  induction m with
  | nil => rfl
  | cons q rest ih =>
    obtain ⟨k, s⟩ := q
    unfold settingsErase at ih ⊢
    by_cases h : k = key
    · rw [List.filter_cons, if_neg (by simpa using h)]
      simp only [mapFind, if_neg (h ▸ hne)]
      exact ih
    · rw [List.filter_cons, if_pos (by simpa using h)]
      simp only [mapFind, ih]

/-! ## Claims on the order of the Settings and on copies -/

/-- C14 (insertion-order stability): a Property of more than one Setting that is not
flagged for explicit order is rendered with one member per Setting in the order of its
store, and a store filled by `settings[key] = ...` with distinct keys holds them in the
order of the assignments; so `knownRegions` is rendered as English, Japanese, French,
German. -/
theorem writeProperty_store_order (varName : String) (prop : Property) (flags : Nat)
    (ho : prop.hasOrder = false) (hn : prop.settings.length > 1) :
    writeProperty varName prop flags
      = (if flags &&& SettingsSingleItem ≠ 0 then "" else "\t\t\t") ++ varName ++ " = "
        ++ (if prop.flags &&& SettingsAsList ≠ 0 then "(\n" else "\x7b\n")
        ++ String.join (prop.settings.map (fun setting =>
              (if flags &&& SettingsSingleItem ≠ 0 then " " else "\t\t\t\t")
              ++ writeSetting setting.1 setting.2
              ++ (if prop.flags &&& SettingsAsList ≠ 0 then ",\n"
                  else ";" ++ (if flags &&& SettingsSingleItem ≠ 0 then " " else "\n"))))
        ++ (if prop.flags &&& SettingsAsList ≠ 0 then "\t\t\t);\n" else "\t\t\t\x7d;\n") ∧
    (∀ kvs : List (String × Setting), (kvs.map Prod.fst).Nodup →
      kvs.foldl (fun m kv => settingsSet m kv.1 kv.2) [] = kvs) ∧
    regions.settings.map Prod.fst = ["English", "Japanese", "French", "German"] ∧
    writeProperty "knownRegions" regions 0
      = "\t\t\tknownRegions = (\n\t\t\t\tEnglish,\n\t\t\t\tJapanese,\n\t\t\t\tFrench,\n"
        ++ "\t\t\t\tGerman,\n\t\t\t);\n" := by
  refine ⟨?_, ?_, by decide, by decide⟩
  · have hw : prop.settings.length > 1 ∨ prop.flags &&& SettingsSingleItem ≠ 0 := Or.inl hn
    rw [writeProperty_eq, getOrderedSettingList_unordered prop ho]
    simp only [if_pos hw]
    congr 2
    apply congrArg
    apply List.map_congr_left
    intro setting _
    unfold memberText
    have hpos : prop.settings.length > 0 := by omega
    by_cases h2 : prop.flags &&& SettingsAsList ≠ 0
    · simp only [if_pos hw, if_pos (And.intro h2 hn), if_pos hpos, if_pos h2]
    · simp only [if_pos hw, if_neg (fun h : _ ∧ _ => h2 h.1), if_neg h2]
  · intro kvs hk
    simpa using foldl_settingsSet kvs [] (by simpa using hk)

/-- Witness, two Settings whose keys are held against the alphabet. -/
theorem writeProperty_store_order_witness :
    writeProperty "p"
        ⟨[("b", ⟨[⟨"1", ""⟩], SettingsNoQuote, 0, -1⟩),
          ("a", ⟨[⟨"2", ""⟩], SettingsNoQuote, 0, -1⟩)], 0, false⟩ 0
      = "\t\t\tp = \x7b\n\t\t\t\tb = 1;\n\t\t\t\ta = 2;\n\t\t\t\x7d;\n" :=
  (writeProperty_store_order "p"
      ⟨[("b", ⟨[⟨"1", ""⟩], SettingsNoQuote, 0, -1⟩),
        ("a", ⟨[⟨"2", ""⟩], SettingsNoQuote, 0, -1⟩)], 0, false⟩ 0 rfl (by decide)).1.trans
    (by decide)

/-- C15 (copy-then-patch does not alias): a copy of a Property holds the Settings of the
original; erasing a key from the copy, or assigning a Setting in it, changes that key in
the copy alone; and in `setupBuildConfiguration` the iPhone Debug settings keep
`GCC_DYNAMIC_NO_PIC = NO`, `GCC_OPTIMIZATION_LEVEL = 0`, `COPY_PHASE_STRIP = NO` and no
`WRAPPER_EXTENSION`, while the Release settings derived from them lack
`GCC_DYNAMIC_NO_PIC` and hold `GCC_OPTIMIZATION_LEVEL = 3`, `COPY_PHASE_STRIP = YES`,
`WRAPPER_EXTENSION = app`. -/
theorem copy_then_patch (p : Property) (key k2 value : String) :
    (Property.copy p).settings = p.settings ∧
    mapFind (REMOVE_SETTING (Property.copy p) key).settings key = none ∧
    mapFind (ADD_SETTING (Property.copy p) key value).settings key
      = some (Setting.ofValue value "" SettingsNoQuote 0 noOrder) ∧
    (k2 ≠ key →
      mapFind (REMOVE_SETTING (Property.copy p) key).settings k2 = mapFind p.settings k2 ∧
      mapFind (ADD_SETTING (Property.copy p) key value).settings k2 = mapFind p.settings k2) ∧
    (mapFind iPhone_Debug.settings "GCC_DYNAMIC_NO_PIC"
        = some (Setting.ofValue "NO" "" SettingsNoQuote 0 noOrder) ∧
      mapFind iPhone_Debug.settings "GCC_OPTIMIZATION_LEVEL"
        = some (Setting.ofValue "0" "" SettingsNoQuote 0 noOrder) ∧
      mapFind iPhone_Debug.settings "COPY_PHASE_STRIP"
        = some (Setting.ofValue "NO" "" SettingsNoQuote 0 noOrder) ∧
      mapFind iPhone_Debug.settings "WRAPPER_EXTENSION" = none) ∧
    (mapFind iPhone_Release.settings "GCC_DYNAMIC_NO_PIC" = none ∧
      mapFind iPhone_Release.settings "GCC_OPTIMIZATION_LEVEL"
        = some (Setting.ofValue "3" "" SettingsNoQuote 0 noOrder) ∧
      mapFind iPhone_Release.settings "COPY_PHASE_STRIP"
        = some (Setting.ofValue "YES" "" SettingsNoQuote 0 noOrder) ∧
      mapFind iPhone_Release.settings "WRAPPER_EXTENSION"
        = some (Setting.ofValue "app" "" SettingsNoQuote 0 noOrder)) := by
  refine ⟨rfl, ?_, ?_, ?_, by decide, by decide⟩
  · exact mapFind_settingsErase_self _ _
  · exact mapFind_settingsSet_self _ _ _
  · intro hne
    exact ⟨mapFind_settingsErase_ne _ _ _ hne, mapFind_settingsSet_ne _ _ _ _ hne⟩

/-- Witness, on the iPhone Debug settings: `SDKROOT` is untouched when
`GCC_DYNAMIC_NO_PIC` is erased from a copy. -/
theorem copy_then_patch_witness :
    mapFind (REMOVE_SETTING (Property.copy iPhone_Debug) "GCC_DYNAMIC_NO_PIC").settings "SDKROOT"
      = some (Setting.ofValue "iphoneos4.0" "" SettingsNoQuote 0 noOrder) :=
  (((copy_then_patch iPhone_Debug "GCC_DYNAMIC_NO_PIC" "SDKROOT" "").2.2.2.1
    (by decide)).1).trans (by decide)

/-! ## Claims on graph assembly and on the project file -/

/-- C16, as stated, fails: the file reference of `CoreAudio.framework` is passed to
`_fileReference.add` three times, once for each target that links it. -/
theorem fileReference_added_three_times :
    ∃ calls, graphAssembly = some calls ∧
      (addedKeys GroupMember._fileReference calls).count "CoreAudio.framework" = 3 ∧
      ¬ (addedKeys GroupMember._fileReference calls).Nodup := by
  decide

/-- C16 (key uniqueness per group, amended): during graph assembly the Objects passed to
`add()` of every group but `_fileReference` carry pairwise distinct identifier keys;
`_fileReference` is passed every framework once per target whose list names it, and every
resource file once per target (three times), each list by itself being free of
repetition. -/
theorem graphAssembly_keys :
    ∃ calls, graphAssembly = some calls ∧
      (∀ g ∈ [GroupMember._buildFile, GroupMember._copyFilesBuildPhase,
          GroupMember._frameworksBuildPhase, GroupMember._groups, GroupMember._nativeTarget,
          GroupMember._project, GroupMember._resourcesBuildPhase,
          GroupMember._sourcesBuildPhase, GroupMember._buildConfiguration,
          GroupMember._configurationList], (addedKeys g calls).Nodup) ∧
      addedKeys GroupMember._fileReference calls
        = frameworks_iPhone ++ frameworks_osx ++ frameworks_simulator
          ++ files_list ++ files_list ++ files_list ∧
      frameworks_iPhone.Nodup ∧ frameworks_osx.Nodup ∧ frameworks_simulator.Nodup ∧
      files_list.Nodup := by
  decide

theorem writeSettingValue_noQuote (name v c : String) :
    writeSettingValue name v c SettingsNoQuote 0 = name ++ " = " ++ v ++ commentSuffix c := by
  unfold writeSettingValue
  have hl : (Setting.ofValue v c SettingsNoQuote 0 noOrder).flags &&& SettingsAsList = 0 := by
    show SettingsNoQuote &&& SettingsAsList = 0
    decide
  have hv : (Setting.ofValue v c SettingsNoQuote 0 noOrder).flags &&& SettingsNoValue = 0 := by
    show SettingsNoQuote &&& SettingsNoValue = 0
    decide
  rw [writeSetting_scalar_single name v c _ hl hv rfl]
  have h1 : renderedName name (Setting.ofValue v c SettingsNoQuote 0 noOrder).flags = name := by
    show renderedName name SettingsNoQuote = name
    unfold renderedName
    exact if_neg (by decide)
  have h2 : quoteMark (Setting.ofValue v c SettingsNoQuote 0 noOrder).flags = "" := by
    show quoteMark SettingsNoQuote = ""
    decide
  rw [h1, h2]
  simp only [String.append_empty]

theorem ouputMainProjectFile_eq (cu : Nat → String) (p : XCodeProvider)
    (outputDir : String) (toString : GroupMember → String) :
    ouputMainProjectFile cu p outputDir true toString
      = Except.ok
          ("// !$*UTF8*$!\n\x7b\n\tarchiveVersion = 1;\n\tclasses = \x7b\n\t\x7d;\n"
            ++ "\tobjectVersion = 46;\n\tobjects = \x7b\n"
            ++ toString GroupMember._buildFile
            ++ toString GroupMember._copyFilesBuildPhase
            ++ toString GroupMember._fileReference
            ++ toString GroupMember._frameworksBuildPhase
            ++ toString GroupMember._groups
            ++ toString GroupMember._nativeTarget
            ++ toString GroupMember._project
            ++ toString GroupMember._resourcesBuildPhase
            ++ toString GroupMember._sourcesBuildPhase
            ++ toString GroupMember._buildConfiguration
            ++ toString GroupMember._configurationList
            ++ "\t\x7d;\n\trootObject = " ++ (getHash cu p "PBXProject").1
            ++ " /* Project object */;\n\x7d\n",
           (getHash cu p "PBXProject").2) := by
  unfold ouputMainProjectFile
  simp only [Bool.not_true, Bool.false_eq_true, if_false, writeSettingValue_noQuote]
  have hc : commentSuffix "" = "" := by decide
  have hp : commentSuffix "Project object" = " /* Project object */" := by decide
  have hhead : "// !$*UTF8*$!\n" ++ "\x7b\n" ++ "\t" ++ ("archiveVersion" ++ " = " ++ "1" ++ "")
      ++ ";\n" ++ "\tclasses = \x7b\n" ++ "\t\x7d;\n" ++ "\t"
      ++ ("objectVersion" ++ " = " ++ "46" ++ "") ++ ";\n" ++ "\tobjects = \x7b\n"
      = "// !$*UTF8*$!\n\x7b\n\tarchiveVersion = 1;\n\tclasses = \x7b\n\t\x7d;\n"
          ++ "\tobjectVersion = 46;\n\tobjects = \x7b\n" := by decide
  have hfoot : ∀ x y : String, x ++ "\t\x7d;\n" ++ "\t" ++ ("rootObject" ++ " = " ++ y
      ++ " /* Project object */") ++ ";\n" ++ "\x7d\n"
      = x ++ "\t\x7d;\n\trootObject = " ++ y ++ " /* Project object */;\n\x7d\n" := by
    intro x y
    apply String.ext
    simp [String.data_append]
  rw [hc, hp, hhead, hfoot]

/-- C17 (document framing): when the file opens, `ouputMainProjectFile` writes the fixed
header, the renderings of the eleven groups in the fixed order, and the footer that names
the identifier `getHash("PBXProject")` with the comment `Project object`; that identifier
is the one the registry already holds for the key `PBXProject`, if it holds one. -/
theorem ouputMainProjectFile_text (cu : Nat → String) (p : XCodeProvider)
    (outputDir : String) (toString : GroupMember → String) :
    ouputMainProjectFile cu p outputDir true toString
      = Except.ok
          ("// !$*UTF8*$!\n\x7b\n\tarchiveVersion = 1;\n\tclasses = \x7b\n\t\x7d;\n"
            ++ "\tobjectVersion = 46;\n\tobjects = \x7b\n"
            ++ toString GroupMember._buildFile
            ++ toString GroupMember._copyFilesBuildPhase
            ++ toString GroupMember._fileReference
            ++ toString GroupMember._frameworksBuildPhase
            ++ toString GroupMember._groups
            ++ toString GroupMember._nativeTarget
            ++ toString GroupMember._project
            ++ toString GroupMember._resourcesBuildPhase
            ++ toString GroupMember._sourcesBuildPhase
            ++ toString GroupMember._buildConfiguration
            ++ toString GroupMember._configurationList
            ++ "\t\x7d;\n\trootObject = " ++ (getHash cu p "PBXProject").1
            ++ " /* Project object */;\n\x7d\n",
           (getHash cu p "PBXProject").2) ∧
    (∀ h, mapFind p._hashDictionnary "PBXProject" = some h →
      (getHash cu p "PBXProject").1 = h) := by
  refine ⟨ouputMainProjectFile_eq cu p outputDir toString, ?_⟩
  intro h hh
  rw [getHash_of_found cu p "PBXProject" h hh]

theorem addedTo_append (g : GroupMember) (a b : AddCalls) :
    addedTo g (a ++ b) = addedTo g a ++ addedTo g b := by
  simp [addedTo]

theorem addedTo_writeFileListToProject (g : GroupMember) (hg : g ≠ GroupMember._groups)
    (n : Nat) : addedTo g (List.replicate n writeFileListToProject).flatten = [] := by
  induction n with
  | zero => rfl
  | succ n ih =>
    rw [List.replicate_succ, List.flatten_cons, addedTo_append, ih]
    simp [addedTo, writeFileListToProject, Ne.symm hg]

/-- C18 (empty group renders nothing): a group without member renders to the empty
string; after a whole run of the provider the groups `_copyFilesBuildPhase` and
`_sourcesBuildPhase` have no member, and the project file is the header, the nine other
group renderings and the footer. -/
theorem empty_group_renders_nothing (sectionHeader : GroupMember → String)
    (renderObject : GroupMember → Object → String) (n : Nat) :
    (∀ g, groupToString (sectionHeader g) (renderObject g) [] = "") ∧
    ∃ calls, providerAddCalls n = some calls ∧
      addedTo GroupMember._copyFilesBuildPhase calls = [] ∧
      addedTo GroupMember._sourcesBuildPhase calls = [] ∧
      renderGroups sectionHeader renderObject calls GroupMember._copyFilesBuildPhase = "" ∧
      renderGroups sectionHeader renderObject calls GroupMember._sourcesBuildPhase = "" ∧
      ∀ (cu : Nat → String) (p : XCodeProvider) (outputDir : String),
        ouputMainProjectFile cu p outputDir true (renderGroups sectionHeader renderObject calls)
          = Except.ok
              ("// !$*UTF8*$!\n\x7b\n\tarchiveVersion = 1;\n\tclasses = \x7b\n\t\x7d;\n"
                ++ "\tobjectVersion = 46;\n\tobjects = \x7b\n"
                ++ renderGroups sectionHeader renderObject calls GroupMember._buildFile
                ++ renderGroups sectionHeader renderObject calls GroupMember._fileReference
                ++ renderGroups sectionHeader renderObject calls GroupMember._frameworksBuildPhase
                ++ renderGroups sectionHeader renderObject calls GroupMember._groups
                ++ renderGroups sectionHeader renderObject calls GroupMember._nativeTarget
                ++ renderGroups sectionHeader renderObject calls GroupMember._project
                ++ renderGroups sectionHeader renderObject calls GroupMember._resourcesBuildPhase
                ++ renderGroups sectionHeader renderObject calls GroupMember._buildConfiguration
                ++ renderGroups sectionHeader renderObject calls GroupMember._configurationList
                ++ "\t\x7d;\n\trootObject = " ++ (getHash cu p "PBXProject").1
                ++ " /* Project object */;\n\x7d\n",
               (getHash cu p "PBXProject").2) := by
  refine ⟨fun g => by simp [groupToString], ?_⟩
  obtain ⟨X, hX, hX1, hX2⟩ : ∃ X, graphAssembly = some X ∧
      addedTo GroupMember._copyFilesBuildPhase X = [] ∧
      addedTo GroupMember._sourcesBuildPhase X = [] := by decide
  have h1 : addedTo GroupMember._copyFilesBuildPhase
      (X ++ (List.replicate n writeFileListToProject).flatten ++ setupSourcesBuildPhase) = [] := by
    rw [addedTo_append, addedTo_append, hX1,
      addedTo_writeFileListToProject _ (by decide) n]
    rfl
  have h2 : addedTo GroupMember._sourcesBuildPhase
      (X ++ (List.replicate n writeFileListToProject).flatten ++ setupSourcesBuildPhase) = [] := by
    rw [addedTo_append, addedTo_append, hX2,
      addedTo_writeFileListToProject _ (by decide) n]
    rfl
  have r1 : renderGroups sectionHeader renderObject
      (X ++ (List.replicate n writeFileListToProject).flatten ++ setupSourcesBuildPhase)
      GroupMember._copyFilesBuildPhase = "" := by
    unfold renderGroups groupToString
    rw [h1]
    rfl
  have r2 : renderGroups sectionHeader renderObject
      (X ++ (List.replicate n writeFileListToProject).flatten ++ setupSourcesBuildPhase)
      GroupMember._sourcesBuildPhase = "" := by
    unfold renderGroups groupToString
    rw [h2]
    rfl
  refine ⟨_, by simp [providerAddCalls, hX], h1, h2, r1, r2, ?_⟩
  intro cu p outputDir
  rw [ouputMainProjectFile_eq, r1, r2]
  simp only [String.append_empty]

/-- C19 (directory creation outcome): on the branch for systems other than Windows,
`createWorkspace` raises the fatal error "Could not create folder ..." exactly when
`mkdir` fails and either `errno` is not `EEXIST` or `opendir` returns `NULL`; in every
other case no error is raised and the setup routines run. -/
theorem createWorkspace_outcome (outputDir : String) (EEXIST mkdirResult errno : Int)
    (dirpIsNull : Bool) :
    (createWorkspace outputDir EEXIST mkdirResult errno dirpIsNull
        = Except.error ("Could not create folder \"" ++ outputDir ++ "/residualvm.xcodeproj\"")
      ↔ (mkdirResult = -1 ∧ (errno ≠ EEXIST ∨ dirpIsNull = true))) ∧
    (createWorkspace outputDir EEXIST mkdirResult errno dirpIsNull = Except.ok graphAssembly
      ↔ ¬ (mkdirResult = -1 ∧ (errno ≠ EEXIST ∨ dirpIsNull = true))) := by
  have hmsg : couldNotCreateFolder outputDir
      = "Could not create folder \"" ++ outputDir ++ "/residualvm.xcodeproj\"" := by
    unfold couldNotCreateFolder
    apply String.ext
    simp [String.data_append]
  unfold createWorkspace
  rw [hmsg]
  by_cases h1 : mkdirResult = -1 <;> by_cases h2 : errno = EEXIST <;> cases dirpIsNull <;>
    simp [h1, h2]

/-! ## `replace` is replace-all -/

theorem splitOccurrences_ne_nil (find : List Char) (l : List Char) :
    ∀ skip, splitOccurrences find skip l ≠ [] := by
  induction l with
  | nil => intro skip; cases skip <;> simp [splitOccurrences]
  | cons c cs ih =>
    intro skip
    cases skip with
    | succ k => simpa [splitOccurrences] using ih k
    | zero =>
      unfold splitOccurrences
      by_cases h : find.isPrefixOf (c :: cs) = true
      · simp [h]
      · simp only [h]
        cases hs : splitOccurrences find 0 cs <;> simp

theorem splitOccurrences_skip (find : List Char) (l : List Char) :
    ∀ skip, skip ≤ l.length →
      splitOccurrences find skip l = splitOccurrences find 0 (l.drop skip) := by
  induction l with
  | nil => intro skip h; cases skip <;> simp [splitOccurrences]
  | cons c cs ih =>
    intro skip h
    cases skip with
    | zero => rfl
    | succ k =>
      simp only [List.length_cons, Nat.add_le_add_iff_right] at h
      simpa [splitOccurrences] using ih k h

theorem intercalate_cons_of_ne_nil (sep a : List Char) (l : List (List Char)) (h : l ≠ []) :
    List.intercalate sep (a :: l) = a ++ sep ++ List.intercalate sep l := by
  cases l with
  | nil => exact absurd rfl h
  | cons b l => simp [List.intercalate, List.intersperse]

theorem intercalate_cons_cons (sep : List Char) (c : Char) (p : List Char)
    (ps : List (List Char)) :
    List.intercalate sep ((c :: p) :: ps) = c :: List.intercalate sep (p :: ps) := by
  cases ps with
  | nil => simp [List.intercalate, List.intersperse]
  | cons b l => simp [List.intercalate, List.intersperse]

theorem isPrefixOf_length (find l : List Char) (h : find.isPrefixOf l = true) :
    find.length ≤ l.length :=
  (List.isPrefixOf_iff_prefix.mp h).length_le

theorem joined_nil (find sep : List Char) :
    List.intercalate sep (splitOccurrences find 0 []) = [] := by
  simp [splitOccurrences, List.intercalate]

theorem joined_hit (find sep : List Char) (c : Char) (cs : List Char) (hne : find ≠ [])
    (h : find.isPrefixOf (c :: cs) = true) :
    List.intercalate sep (splitOccurrences find 0 (c :: cs))
      = sep ++ List.intercalate sep (splitOccurrences find 0 ((c :: cs).drop find.length)) := by
  have hlen := isPrefixOf_length find (c :: cs) h
  have hpos : 0 < find.length := List.length_pos.mpr hne
  simp only [List.length_cons] at hlen
  have hdrop : (c :: cs).drop find.length = cs.drop (find.length - 1) := by
    obtain ⟨m, hm⟩ : ∃ m, find.length = m + 1 := ⟨find.length - 1, by omega⟩
    rw [hm]
    simp
  rw [splitOccurrences, if_pos h,
    intercalate_cons_of_ne_nil _ _ _ (splitOccurrences_ne_nil find cs _),
    splitOccurrences_skip find cs _ (by omega), hdrop]
  simp

theorem joined_skip (find sep : List Char) (c : Char) (cs : List Char)
    (h : find.isPrefixOf (c :: cs) = false) :
    List.intercalate sep (splitOccurrences find 0 (c :: cs))
      = c :: List.intercalate sep (splitOccurrences find 0 cs) := by
  rw [splitOccurrences]
  simp only [h, Bool.false_eq_true, if_false]
  cases hs : splitOccurrences find 0 cs with
  | nil => exact absurd hs (splitOccurrences_ne_nil find cs 0)
  | cons piece pieces => exact intercalate_cons_cons sep c piece pieces

theorem replaceLoop_all (find replaceStr : String) (hne : find.data ≠ []) (n : Nat) :
    ∀ rest : List Char, rest.length ≤ n → ∀ (done : List Char) (fuel : Nat),
      rest.length + 1 ≤ fuel →
      replaceLoop find replaceStr fuel ⟨done ++ rest⟩ done.length
        = some ⟨done ++ List.intercalate replaceStr.data
            (splitOccurrences find.data 0 rest)⟩ := by
  have hnil : find.data.isPrefixOf [] = false := by
    cases hf : find.data with
    | nil => exact absurd hf hne
    | cons a as => rfl
  induction n with
  | zero =>
    intro rest hr done fuel hf
    have : rest = [] := List.length_eq_zero.mp (Nat.le_zero.mp hr)
    subst this
    obtain ⟨f, rfl⟩ : ∃ f, fuel = f + 1 := ⟨fuel - 1, by simp at hf; omega⟩
    simpa [joined_nil] using replaceLoop_end find replaceStr f done hnil
  | succ n ih =>
    intro rest hr done fuel hf
    cases rest with
    | nil =>
      obtain ⟨f, rfl⟩ : ∃ f, fuel = f + 1 := ⟨fuel - 1, by simp at hf; omega⟩
      simpa [joined_nil] using replaceLoop_end find replaceStr f done hnil
    | cons c cs =>
      simp only [List.length_cons] at hr hf
      by_cases h : find.data.isPrefixOf (c :: cs) = true
      · obtain ⟨f, rfl⟩ : ∃ f, fuel = f + 1 := ⟨fuel - 1, by omega⟩
        have hpos : 0 < find.data.length := List.length_pos.mpr hne
        have hdl : ((c :: cs).drop find.length).length = cs.length + 1 - find.data.length := by
          rw [List.length_drop]
          rfl
        rw [replaceLoop_hit _ _ _ _ _ _ h,
          ih _ (by omega) (done ++ replaceStr.data) f (by omega),
          joined_hit _ _ _ _ hne h]
        simp only [List.append_assoc]
        rfl
      · have h' : find.data.isPrefixOf (c :: cs) = false := Bool.eq_false_of_not_eq_true h
        rw [replaceLoop_skip _ _ _ _ _ _ h', ih cs (by omega) (done ++ [c]) fuel (by omega),
          joined_skip _ _ _ _ h']
        simp

theorem joined_by_find (find : List Char) (hne : find ≠ []) (n : Nat) :
    ∀ l : List Char, l.length ≤ n →
      List.intercalate find (splitOccurrences find 0 l) = l := by
  induction n with
  | zero =>
    intro l hl
    have : l = [] := List.length_eq_zero.mp (Nat.le_zero.mp hl)
    subst this
    exact joined_nil find find
  | succ n ih =>
    intro l hl
    cases l with
    | nil => exact joined_nil find find
    | cons c cs =>
      simp only [List.length_cons] at hl
      by_cases h : find.isPrefixOf (c :: cs) = true
      · have hpos : 0 < find.length := List.length_pos.mpr hne
        have hd : ((c :: cs).drop find.length).length ≤ n := by
          simp only [List.length_drop, List.length_cons]
          omega
        rw [joined_hit _ _ _ _ hne h, ih _ hd]
        obtain ⟨t, ht⟩ := List.isPrefixOf_iff_prefix.mp h
        rw [← ht]
        simp
      · have h' : find.isPrefixOf (c :: cs) = false := Bool.eq_false_of_not_eq_true h
        rw [joined_skip _ _ _ _ h', ih cs (by omega)]

/-- C20 (`replace` is total and equals replace-all): for a non-empty `find`, the loop of
`replace` ends within `input.length + 1` passes, and `replace` returns the pieces of
`input` between the leftmost non-overlapping occurrences of `find` joined by `replaceStr`
(joined by `find` they give `input` back); for the empty `find` it returns `input`, so
the values of a list Setting with `SettingsNoQuote` are written as they are. -/
theorem replace_replaces_all (input find replaceStr : String) (hfind : find ≠ "") :
    (∀ fuel, input.length + 1 ≤ fuel →
      replaceLoop find replaceStr fuel input 0
        = some ⟨List.intercalate replaceStr.data (splitOccurrences find.data 0 input.data)⟩) ∧
    replace input find replaceStr
      = ⟨List.intercalate replaceStr.data (splitOccurrences find.data 0 input.data)⟩ ∧
    List.intercalate find.data (splitOccurrences find.data 0 input.data) = input.data ∧
    replace input "" replaceStr = input ∧
    (∀ (name : String) (s : Setting), s.flags &&& SettingsAsList ≠ 0 →
      s.flags &&& SettingsNoQuote ≠ 0 →
      writeSetting name s
        = renderedName name s.flags
          ++ (if s.flags &&& SettingsNoValue ≠ 0 then "(" else " = (")
          ++ NL s.indent.toNat
          ++ String.intercalate ("," ++ NL s.indent.toNat)
              ((s.entries.filter (fun e => e.value ≠ "")).map (fun e =>
                e.value ++ commentSuffix e.comment))
          ++ (if s.flags &&& SettingsNoValue ≠ 0 then "\t\t\t)"
              else "," ++ resize (NL s.indent.toNat) ((NL s.indent.toNat).length - 1) ++ ")")) := by
  have hne : find.data ≠ [] := by
    intro h
    exact hfind (String.ext h)
  have hloop : ∀ fuel, input.length + 1 ≤ fuel →
      replaceLoop find replaceStr fuel input 0
        = some ⟨List.intercalate replaceStr.data (splitOccurrences find.data 0 input.data)⟩ := by
    intro fuel hf
    have := replaceLoop_all find replaceStr hne input.data.length input.data (Nat.le_refl _)
      [] fuel hf
    simpa using this
  refine ⟨hloop, ?_, joined_by_find find.data hne _ _ (Nat.le_refl _), replace_empty _ _, ?_⟩
  · have hlen : find.length ≠ 0 := by
      intro h
      exact hne (List.length_eq_zero.mp h)
    unfold replace
    rw [if_neg hlen, hloop _ (Nat.le_refl _)]
    rfl
  · intro name s hl hq
    have h := writeSetting_asList name s hl
    have hq1 : quoteMark s.flags = "" := by
      unfold quoteMark
      exact if_pos hq
    have hq2 : escapedQuoteMark s.flags = "" := by
      unfold escapedQuoteMark
      exact if_pos hq
    simpa only [hq1, hq2, replace_empty, String.empty_append, String.append_empty] using h

/-- Witness, an occurrence that overlaps the previous one is not replaced, the inserted
text is not scanned again, and a replacement that holds `find` ends. -/
theorem replace_replaces_all_witness :
    replace "aaa" "aa" "a" = "aa" ∧ replace "a\"b" "\"" "\\\"" = "a\\\"b" :=
  ⟨(replace_replaces_all "aaa" "aa" "a" (by decide)).2.1.trans (by decide),
   (replace_replaces_all "a\"b" "\"" "\\\"" (by decide)).2.1.trans (by decide)⟩

/-! ## The closing bracket of a list Setting -/

theorem resize_NL_zero : resize (NL 0) ((NL 0).length - 1) = "" := by decide

theorem writeSetting_list_indent_nonpos (name : String) (s : Setting)
    (hl : s.flags &&& SettingsAsList ≠ 0) (hv : s.flags &&& SettingsNoValue = 0)
    (hn : s.indent ≤ 0) :
    writeSetting name s
      = renderedName name s.flags ++ " = (" ++ "\n"
        ++ String.intercalate ("," ++ "\n")
            ((s.entries.filter (fun e => e.value ≠ "")).map (fun e =>
              quoteMark s.flags ++ replace e.value (quoteMark s.flags) (escapedQuoteMark s.flags)
                ++ quoteMark s.flags ++ commentSuffix e.comment))
        ++ ",)" := by
  have h := writeSetting_asList name s hl
  have h0 : s.indent.toNat = 0 := by omega
  have hnl : NL 0 = "\n" := rfl
  rw [h0, resize_NL_zero, hnl] at h
  simp only [hv, ne_eq, not_true_eq_false, if_false] at h
  rw [h]
  have hc : "," ++ "" ++ ")" = ",)" := by decide
  rw [hc]

/-- C21 (closing bracket on its own line), evaluated where the code departs from it: at
indent depth 0, the default of the value overload, `newline.resize(newline.size() - 1)`
removes the line break itself, so the closing `)` follows the last comma on the same
line; at depth 1 it stands on a line of its own. -/
theorem writeSetting_list_closing_at_indent_zero :
    writeSetting "n" ⟨[⟨"a", ""⟩], SettingsAsList, 0, -1⟩ = "n = (\n\"a\",)" ∧
    writeSettingValue "n" "a" "" SettingsAsList 0 = "n = (\n\"a\",)" ∧
    "\n)".data.isSuffixOf (writeSetting "n" ⟨[⟨"a", ""⟩], SettingsAsList, 0, -1⟩).data = false ∧
    writeSetting "n" ⟨[⟨"a", ""⟩], SettingsAsList, 1, -1⟩ = "n = (\n\t\"a\",\n)" := by
  decide

/-! ## Claims on the configuration lists -/

theorem configurationLists_objects (cu : Nat → String) :
    ∀ (objs : List Object) (p : XCodeProvider),
      (configurationLists cu p objs).map (fun r => r.1.map Prod.fst)
        = configurationListLoop objs
  | [], _ => rfl
  | [_], _ => rfl
  | a :: b :: rest, p => by
    have ih := configurationLists_objects cu rest
      (getHash cu (getHash cu p a.id).2 b.id).2
    simp only [configurationLists, configurationListLoop, Option.map_map, ← ih]
    rfl

end CreateProjectTool
